import Mathlib

/-!
Verification of the shift-scheduler repository (scheduling-service core).

Shallow embedding conventions:
* `Uuid` is modelled as `Nat`; `NaiveDate` as `Int` (days since 1970-01-01,
  which was a Thursday, so a date is a Monday iff it is ≡ 4 mod 7);
  `DateTime<Utc>` as `Int`; `Instant` as `Nat` (seconds).
* Rust `u8`/`u32`/`usize` counters become `Nat` (all counters involved stay
  far below their machine bounds in the modelled code paths).
* Fallible code returns `Except`; stateful code passes state explicitly;
  side effects on the job repository and HTTP transport are reified as
  event traces.
-/

namespace ShiftScheduler

/-- `shared::types::ShiftType`. -/
inductive ShiftType
  | Morning
  | Evening
  | DayOff
deriving DecidableEq, Repr

/-- `shared::types::StaffStatus`. -/
inductive StaffStatus
  | Active
  | Inactive
deriving DecidableEq, Repr

/-- `shared::types::JobStatus`. -/
inductive JobStatus
  | Pending
  | Processing
  | Completed
  | Failed
  | WaitingForRetry
deriving DecidableEq, Repr

/-- `shared::types::Staff` (Uuid as Nat, timestamps as Int). -/
structure Staff where
  id : Nat
  name : String
  email : String
  position : String
  status : StaffStatus
  created_at : Int
  updated_at : Int
deriving DecidableEq, Repr

/-- `shared::types::ScheduleJob`. -/
structure ScheduleJob where
  id : Nat
  staff_group_id : Nat
  period_begin_date : Int
  status : JobStatus
  created_at : Int
  updated_at : Int
deriving DecidableEq, Repr

/-- `scheduling-service error.rs SchedulingServiceError` (the `Database`
variant carries its message only, as the sqlx error is opaque here). -/
inductive SchedulingServiceError
  | NotFound (msg : String)
  | BadRequest (msg : String)
  | Internal (msg : String)
  | Database (msg : String)
  | DataService (msg : String)
  | DataServiceUnavailable (msg : String)
  | CircuitOpen
deriving DecidableEq, Repr

-- ------------------------------------------------------------------
-- domain/circuit_breaker.rs
-- ------------------------------------------------------------------

/-- `CircuitState` from `domain/circuit_breaker.rs`. -/
inductive CircuitState
  | Closed
  | Open
  | HalfOpen
deriving DecidableEq, Repr

/-- `CircuitBreakerConfig` from `domain/circuit_breaker.rs`. -/
structure CircuitBreakerConfig where
  failure_threshold : Nat
  cooldown_secs : Nat
deriving DecidableEq, Repr

/-- `CircuitBreaker` from `domain/circuit_breaker.rs`; `Instant` is a `Nat`
timestamp in seconds. -/
structure CircuitBreaker where
  state : CircuitState
  consecutive_failures : Nat
  last_failure_time : Option Nat
  config : CircuitBreakerConfig
deriving DecidableEq, Repr

/-- `CircuitBreaker::new`. -/
def CircuitBreaker.new (config : CircuitBreakerConfig) : CircuitBreaker :=
  { state := .Closed
    consecutive_failures := 0
    last_failure_time := none
    config := config }

/-- `CircuitBreaker::can_execute`, with the current instant `now` passed
explicitly; returns the Rust return value and the updated breaker.
`last_failure.elapsed()` is `now - last` (saturating, like `Instant::elapsed`). -/
def CircuitBreaker.can_execute (b : CircuitBreaker) (now : Nat) : Bool × CircuitBreaker :=
  match b.state with
  | .Closed => (true, b)
  | .Open =>
    match b.last_failure_time with
    | some last_failure =>
      if b.config.cooldown_secs ≤ now - last_failure then
        (true, { b with state := .HalfOpen })
      else
        (false, b)
    | none => (false, b)
  | .HalfOpen => (true, b)

/-- `CircuitBreaker::record_success`. -/
def CircuitBreaker.record_success (b : CircuitBreaker) : CircuitBreaker :=
  { b with consecutive_failures := 0, last_failure_time := none, state := .Closed }

/-- `CircuitBreaker::record_failure`, with the current instant `now`
standing for `Instant::now()`. -/
def CircuitBreaker.record_failure (b : CircuitBreaker) (now : Nat) : CircuitBreaker :=
  let b1 : CircuitBreaker :=
    { b with consecutive_failures := b.consecutive_failures + 1
             last_failure_time := some now }
  match b1.state with
  | .Closed =>
    if b1.config.failure_threshold ≤ b1.consecutive_failures then
      { b1 with state := .Open }
    else
      b1
  | .HalfOpen => { b1 with state := .Open }
  | .Open => b1

/-- `CircuitBreaker::force_close`. -/
def CircuitBreaker.force_close (b : CircuitBreaker) : CircuitBreaker :=
  { b with consecutive_failures := 0, last_failure_time := none, state := .Closed }

/-- Folds a sequence of `record_failure` calls (at the given instants) over a
breaker. -/
def CircuitBreaker.record_failures (b : CircuitBreaker) (ts : List Nat) : CircuitBreaker :=
  ts.foldl CircuitBreaker.record_failure b

-- ------------------------------------------------------------------
-- infrastructure/circuit_breaker.rs : CircuitBreakerClient
-- ------------------------------------------------------------------

/-- `CircuitBreakerClient::get_resolved_members`. The inner client call is
an oracle value `inner`; the third component of the result records whether
the inner client was actually invoked. -/
def CircuitBreakerClient.get_resolved_members (b : CircuitBreaker) (now : Nat)
    (inner : Except SchedulingServiceError (List Staff)) :
    Except SchedulingServiceError (List Staff) × CircuitBreaker × Bool :=
  let r := b.can_execute now
  if r.1 = false then
    (.error .CircuitOpen, r.2, false)
  else
    match inner with
    | .ok result => (.ok result, r.2.record_success, true)
    | .error e => (.error e, r.2.record_failure now, true)

-- ------------------------------------------------------------------
-- infrastructure/health_check.rs : check_health
-- ------------------------------------------------------------------

/-- Outcome of one liveness probe in `check_health`. -/
inductive HealthProbe
  | success
  | nonSuccess
  | transportError
deriving DecidableEq, Repr

/-- `check_health` from `infrastructure/health_check.rs`: returns the
breaker after the probe and whether a `retry_waiting_jobs` sweep was
triggered. On a 2xx probe the code records `was = state ≠ Closed`, then
unconditionally calls `force_close`, and sweeps iff `was` and the
`retrying` latch is clear. -/
def check_health (b : CircuitBreaker) (retrying : Bool) (probe : HealthProbe)
    (now : Nat) : CircuitBreaker × Bool :=
  match probe with
  | .success =>
    let was_not_closed := b.state ≠ CircuitState.Closed
    let b1 := b.force_close
    (b1, was_not_closed && !retrying)
  | .nonSuccess => (b.record_failure now, false)
  | .transportError => (b.record_failure now, false)

-- ------------------------------------------------------------------
-- domain/job_state.rs
-- ------------------------------------------------------------------

/-- `PendingJob` wrapper. -/
structure PendingJob where
  inner : ScheduleJob
deriving DecidableEq, Repr

/-- `ProcessingJob` wrapper. -/
structure ProcessingJob where
  inner : ScheduleJob
deriving DecidableEq, Repr

/-- `CompletedJob` wrapper. -/
structure CompletedJob where
  inner : ScheduleJob
deriving DecidableEq, Repr

/-- `FailedJob` wrapper. -/
structure FailedJob where
  inner : ScheduleJob
deriving DecidableEq, Repr

/-- `WaitingForRetryJob` wrapper. -/
structure WaitingForRetryJob where
  inner : ScheduleJob
deriving DecidableEq, Repr

/-- `PendingJob::from_schedule_job`. -/
def PendingJob.from_schedule_job (job : ScheduleJob) : Option PendingJob :=
  if job.status = JobStatus.Pending then some ⟨job⟩ else none

/-- `PendingJob::start_processing`. -/
def PendingJob.start_processing (p : PendingJob) : ProcessingJob × Nat × JobStatus :=
  (⟨{ p.inner with status := .Processing }⟩, p.inner.id, .Processing)

/-- `ProcessingJob::staff_group_id`. -/
def ProcessingJob.staff_group_id (p : ProcessingJob) : Nat :=
  p.inner.staff_group_id

/-- `ProcessingJob::period_begin_date`. -/
def ProcessingJob.period_begin_date (p : ProcessingJob) : Int :=
  p.inner.period_begin_date

/-- `ProcessingJob::complete`. -/
def ProcessingJob.complete (p : ProcessingJob) : CompletedJob × Nat × JobStatus :=
  (⟨{ p.inner with status := .Completed }⟩, p.inner.id, .Completed)

/-- `ProcessingJob::fail`. -/
def ProcessingJob.fail (p : ProcessingJob) : FailedJob × Nat × JobStatus :=
  (⟨{ p.inner with status := .Failed }⟩, p.inner.id, .Failed)

/-- `ProcessingJob::wait_for_retry`. -/
def ProcessingJob.wait_for_retry (p : ProcessingJob) : WaitingForRetryJob × Nat × JobStatus :=
  (⟨{ p.inner with status := .WaitingForRetry }⟩, p.inner.id, .WaitingForRetry)

/-- `WaitingForRetryJob::into_pending`. -/
def WaitingForRetryJob.into_pending (w : WaitingForRetryJob) : PendingJob × Nat × JobStatus :=
  (⟨{ w.inner with status := .Pending }⟩, w.inner.id, .Pending)

-- ------------------------------------------------------------------
-- domain/scheduler.rs : rules and gen_schedule
-- ------------------------------------------------------------------

/-- `PERIOD_DAYS` from `domain/scheduler.rs`. -/
def PERIOD_DAYS : Nat := 28

/-- `DAYS_PER_WEEK` from `domain/scheduler.rs`. -/
def DAYS_PER_WEEK : Nat := 7

/-- `AssignmentContext` from `domain/scheduler.rs`. -/
structure AssignmentContext where
  previous_shift : Option ShiftType
  day_offs_this_week : Nat
  days_remaining_in_week : Nat
  morning_count : Nat
  evening_count : Nat
deriving DecidableEq, Repr

/-- The closed set of `SchedulingRule` implementations built by
`SchedulingConfig::build_rules`. -/
inductive Rule
  | NoMorningAfterEveningRule
  | MaxDayOffRule (max : Nat)
  | MinDayOffRule (min : Nat)
  | DailyBalanceRule (max_diff : Nat)
deriving DecidableEq, Repr

/-- `a.abs_diff(b)` on naturals. -/
def abs_diff (a b : Nat) : Nat :=
  if a ≤ b then b - a else a - b

/-- The `is_valid` implementations of the four rules from
`domain/scheduler.rs`. -/
def Rule.is_valid (r : Rule) (ctx : AssignmentContext) (candidate : ShiftType) : Bool :=
  match r with
  | .NoMorningAfterEveningRule =>
    match ctx.previous_shift, candidate with
    | some .Evening, .Morning => false
    | _, _ => true
  | .MaxDayOffRule max =>
    if candidate ≠ ShiftType.DayOff then true
    else decide (ctx.day_offs_this_week < max)
  | .MinDayOffRule min =>
    if candidate = ShiftType.DayOff then true
    else decide (min ≤ ctx.day_offs_this_week + ctx.days_remaining_in_week)
  | .DailyBalanceRule max_diff =>
    match candidate with
    | .Morning => decide (abs_diff (ctx.morning_count + 1) ctx.evening_count ≤ max_diff)
    | .Evening => decide (abs_diff ctx.morning_count (ctx.evening_count + 1) ≤ max_diff)
    | .DayOff => true

/-- `SchedulingConfig::build_rules`: the rule list derived from the four
config fields, in source order. -/
def build_rules (no_morning_after_evening : Bool) (max_day_off_per_week : Option Nat)
    (min_day_off_per_week : Option Nat) (max_daily_shift_diff : Option Nat) : List Rule :=
  (if no_morning_after_evening then [Rule.NoMorningAfterEveningRule] else [])
    ++ (match max_day_off_per_week with
        | some max => [Rule.MaxDayOffRule max]
        | none => [])
    ++ (match min_day_off_per_week with
        | some min => [Rule.MinDayOffRule min]
        | none => [])
    ++ (match max_daily_shift_diff with
        | some max_diff => [Rule.DailyBalanceRule max_diff]
        | none => [])

/-- `NewShiftAssignment` from `domain/job.rs`. -/
structure NewShiftAssignment where
  staff_id : Nat
  date : Int
  shift_type : ShiftType
deriving DecidableEq, Repr

/-- `SchedulingError` from `domain/scheduler.rs`. -/
inductive SchedulingError
  | NoValidShift (staff_id : Nat) (day : Nat)
deriving DecidableEq, Repr

/-- The mutable state threaded through `gen_schedule`:
`previous_shifts`, `weekly_day_offs` and the accumulated `assignments`. -/
structure GenState where
  previous_shifts : List (Option ShiftType)
  weekly_day_offs : List Nat
  assignments : List NewShiftAssignment
deriving DecidableEq, Repr

/-- The `shift_options` array chosen per day in `gen_schedule`. -/
def shift_options (day : Nat) : List ShiftType :=
  if day % 2 = 0 then [.Morning, .Evening, .DayOff]
  else [.Evening, .Morning, .DayOff]

/-- The inner staff loop of `gen_schedule` for one day: processes the staff
indices in `order`, threading the per-day `morning_count` / `evening_count`
tallies. -/
def process_day_staff (staff_ids : List Nat) (rules : List Rule) (date : Int)
    (day : Nat) (days_remaining_in_week : Nat) :
    List Nat → GenState → Nat → Nat → Except SchedulingError GenState
  | [], st, _, _ => .ok st
  | i :: order, st, morning_count, evening_count =>
    let staff_id := staff_ids.getD i 0
    let ctx : AssignmentContext :=
      { previous_shift := st.previous_shifts.getD i none
        day_offs_this_week := st.weekly_day_offs.getD i 0
        days_remaining_in_week := days_remaining_in_week
        morning_count := morning_count
        evening_count := evening_count }
    match (shift_options day).find? (fun s => rules.all (fun r => r.is_valid ctx s)) with
    | none => .error (.NoValidShift staff_id day)
    | some shift =>
      let st1 : GenState :=
        { previous_shifts := st.previous_shifts.set i (some shift)
          weekly_day_offs :=
            if shift = ShiftType.DayOff then
              st.weekly_day_offs.set i (st.weekly_day_offs.getD i 0 + 1)
            else st.weekly_day_offs
          assignments := st.assignments
            ++ [{ staff_id := staff_id, date := date, shift_type := shift }] }
      process_day_staff staff_ids rules date day days_remaining_in_week order st1
        (if shift = ShiftType.Morning then morning_count + 1 else morning_count)
        (if shift = ShiftType.Evening then evening_count + 1 else evening_count)

/-- One iteration of the `for day in 0..PERIOD_DAYS` loop of `gen_schedule`. -/
def gen_day (staff_ids : List Nat) (rules : List Rule) (period_begin_date : Int)
    (st : GenState) (day : Nat) : Except SchedulingError GenState :=
  let date := period_begin_date + (day : Int)
  let day_in_week := day % DAYS_PER_WEEK
  let days_remaining_in_week := DAYS_PER_WEEK - 1 - day_in_week
  let st := if day_in_week = 0 then
      { st with weekly_day_offs := st.weekly_day_offs.map (fun _ => 0) }
    else st
  let staff_count := staff_ids.length
  let order := if day % 2 = 0 then List.range staff_count
    else (List.range staff_count).reverse
  process_day_staff staff_ids rules date day days_remaining_in_week order st 0 0

/-- The day loop of `gen_schedule`, over an explicit list of day indices. -/
def gen_days (staff_ids : List Nat) (rules : List Rule) (period_begin_date : Int) :
    List Nat → GenState → Except SchedulingError GenState
  | [], st => .ok st
  | d :: ds, st =>
    match gen_day staff_ids rules period_begin_date st d with
    | .ok st1 => gen_days staff_ids rules period_begin_date ds st1
    | .error e => .error e

/-- `gen_schedule` from `domain/scheduler.rs`. -/
def gen_schedule (staff_ids : List Nat) (period_begin_date : Int)
    (rules : List Rule) : Except SchedulingError (List NewShiftAssignment) :=
  let init : GenState :=
    { previous_shifts := List.replicate staff_ids.length none
      weekly_day_offs := List.replicate staff_ids.length 0
      assignments := [] }
  match gen_days staff_ids rules period_begin_date (List.range PERIOD_DAYS) init with
  | .ok st => .ok st.assignments
  | .error e => .error e

-- ------------------------------------------------------------------
-- domain/service.rs : process_job and submit_schedule
-- ------------------------------------------------------------------

/-- An observable side effect of `process_job` on the job repository or the
data-service client, in program order. -/
inductive RepoEvent
  | updateStatus (id : Nat) (status : JobStatus)
  | saveAssignments (id : Nat) (assignments : List NewShiftAssignment)
  | fetchRoster (group_id : Nat)
deriving DecidableEq, Repr

/-- Extracts the status of an `updateStatus` event. -/
def RepoEvent.statusOf : RepoEvent → Option JobStatus
  | .updateStatus _ s => some s
  | _ => none

/-- The last status written to the repository in a trace. -/
def persistedStatus (tr : List RepoEvent) : Option JobStatus :=
  (tr.filterMap RepoEvent.statusOf).getLast?

/-- The `Active`-filtered id list computed by `process_job`. -/
def activeIds (members : List Staff) : List Nat :=
  (members.filter (fun s => s.status = StaffStatus.Active)).map (fun s => s.id)

/-- `process_job` from `domain/service.rs`, with the roster fetch result
passed as an oracle and repository writes reified as a trace (the modelled
repository itself always succeeds). -/
def process_job (pending_job : PendingJob)
    (fetch : Except SchedulingServiceError (List Staff)) (rules : List Rule) :
    List RepoEvent × Except SchedulingServiceError Unit :=
  let r0 := pending_job.start_processing
  let processing_job := r0.1
  let job_id := r0.2.1
  let ev1 : List RepoEvent :=
    [.updateStatus job_id r0.2.2, .fetchRoster processing_job.staff_group_id]
  match fetch with
  | .error SchedulingServiceError.CircuitOpen =>
    let r := processing_job.wait_for_retry
    (ev1 ++ [.updateStatus r.2.1 r.2.2], .error SchedulingServiceError.CircuitOpen)
  | .error (SchedulingServiceError.DataServiceUnavailable m) =>
    let r := processing_job.wait_for_retry
    (ev1 ++ [.updateStatus r.2.1 r.2.2],
     .error (SchedulingServiceError.DataServiceUnavailable m))
  | .error e =>
    let r := processing_job.fail
    (ev1 ++ [.updateStatus r.2.1 r.2.2], .error e)
  | .ok members =>
    match gen_schedule (activeIds members) processing_job.period_begin_date rules with
    | .ok assignments =>
      let r := processing_job.complete
      (ev1 ++ [.saveAssignments job_id assignments, .updateStatus r.2.1 r.2.2], .ok ())
    | .error (.NoValidShift sid day) =>
      let r := processing_job.fail
      (ev1 ++ [.updateStatus r.2.1 r.2.2],
       .error (.Internal ("Scheduling failed: No valid shift found for staff "
          ++ toString sid ++ " on day " ++ toString day)))

/-- A date (Int days since 1970-01-01, a Thursday) is a Monday iff it is
≡ 4 mod 7. -/
def isMonday (d : Int) : Bool :=
  d.emod 7 = 4

/-- An observable side effect of `submit_schedule`. -/
inductive SubmitEvent
  | createJob (group_id : Nat) (period_begin_date : Int)
deriving DecidableEq, Repr

/-- The validation-and-create part of `SchedulingService::submit_schedule`,
with `today_in(configured_timezone)` passed as `today`; `createJob` events
record storage writes. -/
def submit_schedule (staff_group_id : Nat) (period_begin_date : Int)
    (today : Int) : List SubmitEvent × Except SchedulingServiceError Unit :=
  if isMonday period_begin_date = false then
    ([], .error (.BadRequest "period_begin_date must be a Monday"))
  else if period_begin_date < today then
    ([], .error (.BadRequest "period_begin_date must not be in the past"))
  else
    ([.createJob staff_group_id period_begin_date], .ok ())

-- ------------------------------------------------------------------
-- infrastructure/client.rs : HttpDataServiceClient::get_resolved_members
-- ------------------------------------------------------------------

/-- `MAX_RETRIES` from `infrastructure/client.rs`. -/
def MAX_RETRIES : Nat := 3

/-- Outcome of one HTTP attempt: a transport-level failure, or a response
with a status (success or not) and, for success, the parsed
`ApiResponse.data` field (`Except` for deserialization failure, `Option`
for a missing field). -/
inductive AttemptOutcome
  | transportError (msg : String)
  | response (is_success : Bool) (body : Except String (Option (List Staff)))

/-- An observable action of the retry loop: an HTTP attempt (1-based
number) or a backoff sleep in milliseconds. -/
inductive ClientEvent
  | attempt (n : Nat)
  | sleep (ms : Nat)
deriving DecidableEq, Repr

/-- The `Ok(res)` arm of the retry loop: a non-success status is a
terminal `DataService` error; otherwise the body is deserialized and its
`data` field extracted, each failure being a terminal `DataService`
error. -/
def respResult (is_success : Bool) (body : Except String (Option (List Staff))) :
    Except SchedulingServiceError (List Staff) :=
  if is_success = false then
    .error (.DataService "Data Service returned a non-success status")
  else
    match body with
    | .error e => .error (.DataService ("Failed to deserialize response: " ++ e))
    | .ok none => .error (.DataService "No data in response")
    | .ok (some staff) => .ok staff

/-- The `for attempt in 1..=MAX_RETRIES` loop of `get_resolved_members`;
`fuel` counts the remaining iterations (initially `MAX_RETRIES`, so the
loop body runs for `attempt = 1, 2, 3`). On exhaustion the last transport
error becomes `DataServiceUnavailable`. -/
def attemptLoop (outcomes : Nat → AttemptOutcome) :
    Nat → Nat → List ClientEvent × Except SchedulingServiceError (List Staff)
  | _, 0 =>
    ([], .error (.DataServiceUnavailable "Failed to reach Data Service after 3 attempts"))
  | attempt, fuel + 1 =>
    match outcomes attempt with
    | .response is_success body => ([.attempt attempt], respResult is_success body)
    | .transportError _ =>
      if attempt < MAX_RETRIES then
        let r := attemptLoop outcomes (attempt + 1) fuel
        (.attempt attempt :: .sleep (100 * 2 ^ (attempt - 1)) :: r.1, r.2)
      else
        ([.attempt attempt],
         .error (.DataServiceUnavailable "Failed to reach Data Service after 3 attempts"))

/-- `HttpDataServiceClient::get_resolved_members`, with the transport
modelled by the per-attempt outcome oracle. -/
def HttpDataServiceClient.get_resolved_members (outcomes : Nat → AttemptOutcome) :
    List ClientEvent × Except SchedulingServiceError (List Staff) :=
  attemptLoop outcomes 1 MAX_RETRIES

/-- Number of HTTP attempts recorded in a client trace. -/
def attemptCount (evs : List ClientEvent) : Nat :=
  evs.countP (fun e => match e with | .attempt _ => true | _ => false)

/-- The backoff sleeps recorded in a client trace, in order. -/
def sleepsOf (evs : List ClientEvent) : List Nat :=
  evs.filterMap (fun e => match e with | .sleep ms => some ms | _ => none)

-- ------------------------------------------------------------------
-- Counting helpers used to state the schedule invariants
-- ------------------------------------------------------------------

/-- 1 if the shift is a `DayOff`, else 0. -/
def offInc (s : ShiftType) : Nat :=
  if s = ShiftType.DayOff then 1 else 0

/-- Number of assignments for staff `s` on date `d` in a list. -/
def countAsg (l : List NewShiftAssignment) (s : Nat) (d : Int) : Nat :=
  l.countP (fun a => decide (a.staff_id = s ∧ a.date = d))

/-- Number of `DayOff` assignments of staff `s` whose date falls in week `w`
(dates `[pbd + 7w, pbd + 7w + 7)`) of the period beginning at `pbd`. -/
def countOffWeek (l : List NewShiftAssignment) (s : Nat) (pbd : Int) (w : Nat) : Nat :=
  l.countP (fun a => decide (a.staff_id = s ∧ a.shift_type = ShiftType.DayOff
    ∧ pbd + 7 * (w : Int) ≤ a.date ∧ a.date < pbd + 7 * (w : Int) + 7))

/-- The shape of the block of assignments `gen_schedule` appends on day
`d`: the staff ids in the day's processing order (forward on even days,
reverse on odd days) and the day's date on every entry. -/
def dayBlockSpec (staff_ids : List Nat) (pbd : Int) (d : Nat)
    (blk : List NewShiftAssignment) : Prop :=
  blk.map (fun a => a.staff_id)
      = (if d % 2 = 0 then staff_ids else staff_ids.reverse)
  ∧ ∀ a ∈ blk, a.date = pbd + (d : Int)

/-- Invariant maintained through week `w` for the staff at index `i`
(with id `s`), at the point where `j` days of the week have been
processed: once at least one day has run, the weekly counter can still
reach `mn` within the remaining days, never exceeds `mx`, and equals the
number of this staff's `DayOff` assignments dated in week `w`; all
assignment dates so far predate the unprocessed days. -/
def weekInv (i s : Nat) (pbd : Int) (mn mx w j : Nat) (st : GenState) : Prop :=
  (1 ≤ j →
    mn ≤ st.weekly_day_offs.getD i 0 + (7 - j)
    ∧ st.weekly_day_offs.getD i 0 ≤ mx
    ∧ countOffWeek st.assignments s pbd w = st.weekly_day_offs.getD i 0)
  ∧ ∀ a ∈ st.assignments, a.date < pbd + 7 * (w : Int) + (j : Int)

-- ------------------------------------------------------------------
-- The scheduling algorithm as the spec states it (for the refinement
-- claim about processing order and candidate order)
-- ------------------------------------------------------------------

/-- Modelled from the spec: per-staff scheduling state carried across days
("the staff's `previous_shift` is remembered for the next day"; weekly
day-off counters "reset every 7 days from period start"). -/
structure SpecStaff where
  sid : Nat
  prev : Option ShiftType
  offs : Nat
deriving DecidableEq, Repr

/-- Modelled from the spec: the candidate shift sequence, "`[Morning,
Evening, DayOff]` on even days, `[Evening, Morning, DayOff]` on odd days". -/
def spec_candidates (day : Nat) : List ShiftType :=
  if day % 2 = 0 then [.Morning, .Evening, .DayOff]
  else [.Evening, .Morning, .DayOff]

/-- Modelled from the spec: "the first candidate for which every rule
returns true is assigned". -/
def spec_first_valid (rules : List Rule) (ctx : AssignmentContext) :
    List ShiftType → Option ShiftType
  | [] => none
  | c :: cs =>
    if rules.all (fun r => r.is_valid ctx c) then some c
    else spec_first_valid rules ctx cs

/-- Modelled from the spec: processing one day's staff, in the given
processing order, as a list of per-staff records; returns the updated
records (in processing order) and the day's assignments. -/
def spec_pass (rules : List Rule) (date : Int) (day : Nat) (drw : Nat) :
    List SpecStaff → Nat → Nat →
    Except SchedulingError (List SpecStaff × List NewShiftAssignment)
  | [], _, _ => .ok ([], [])
  | m :: rest, morning_count, evening_count =>
    let ctx : AssignmentContext :=
      { previous_shift := m.prev
        day_offs_this_week := m.offs
        days_remaining_in_week := drw
        morning_count := morning_count
        evening_count := evening_count }
    match spec_first_valid rules ctx (spec_candidates day) with
    | none => .error (.NoValidShift m.sid day)
    | some c =>
      match spec_pass rules date day drw rest
          (if c = ShiftType.Morning then morning_count + 1 else morning_count)
          (if c = ShiftType.Evening then evening_count + 1 else evening_count) with
      | .error e => .error e
      | .ok (rest2, blk) =>
        .ok ({ sid := m.sid, prev := some c, offs := m.offs + offInc c } :: rest2,
             { staff_id := m.sid, date := date, shift_type := c } :: blk)

/-- Modelled from the spec: one day — reset weekly counters when
`day % 7 == 0`, process staff forward on even days and in reverse on odd
days. -/
def spec_day (rules : List Rule) (pbd : Int) (staff : List SpecStaff)
    (day : Nat) : Except SchedulingError (List SpecStaff × List NewShiftAssignment) :=
  let staff1 := if day % 7 = 0 then staff.map (fun m => { m with offs := 0 }) else staff
  let drw := 6 - day % 7
  if day % 2 = 0 then
    spec_pass rules (pbd + (day : Int)) day drw staff1 0 0
  else
    match spec_pass rules (pbd + (day : Int)) day drw staff1.reverse 0 0 with
    | .error e => .error e
    | .ok (rev2, blk) => .ok (rev2.reverse, blk)

/-- Modelled from the spec: the 28-day loop, accumulating assignments. -/
def spec_days (rules : List Rule) (pbd : Int) :
    List Nat → List SpecStaff → List NewShiftAssignment →
    Except SchedulingError (List NewShiftAssignment)
  | [], _, acc => .ok acc
  | d :: ds, staff, acc =>
    match spec_day rules pbd staff d with
    | .error e => .error e
    | .ok (staff2, blk) => spec_days rules pbd ds staff2 (acc ++ blk)

/-- Modelled from the spec: the whole generator, starting every staff with
no previous shift and a zero weekly counter. -/
def gen_schedule_spec (staff_ids : List Nat) (pbd : Int) (rules : List Rule) :
    Except SchedulingError (List NewShiftAssignment) :=
  spec_days rules pbd (List.range PERIOD_DAYS)
    (staff_ids.map (fun s => { sid := s, prev := none, offs := 0 })) []

-- ==================================================================
-- Theorems
-- ==================================================================

-- C10 ---------------------------------------------------------------

/-- C10: every job-state transition (`start_processing`, `complete`,
`fail`, `wait_for_retry`, `into_pending`) changes only the `status` field
of the wrapped `ScheduleJob` — id, staff_group_id, period_begin_date,
created_at, updated_at are unchanged — and the returned `(id, status)`
tuple equals the record's id and its new status. -/
theorem job_state_transitions_frame :
    (∀ p : PendingJob,
      p.start_processing.1.inner.id = p.inner.id
      ∧ p.start_processing.1.inner.staff_group_id = p.inner.staff_group_id
      ∧ p.start_processing.1.inner.period_begin_date = p.inner.period_begin_date
      ∧ p.start_processing.1.inner.created_at = p.inner.created_at
      ∧ p.start_processing.1.inner.updated_at = p.inner.updated_at
      ∧ p.start_processing.1.inner.status = JobStatus.Processing
      ∧ p.start_processing.2 = (p.inner.id, JobStatus.Processing))
    ∧ (∀ p : ProcessingJob,
      p.complete.1.inner.id = p.inner.id
      ∧ p.complete.1.inner.staff_group_id = p.inner.staff_group_id
      ∧ p.complete.1.inner.period_begin_date = p.inner.period_begin_date
      ∧ p.complete.1.inner.created_at = p.inner.created_at
      ∧ p.complete.1.inner.updated_at = p.inner.updated_at
      ∧ p.complete.1.inner.status = JobStatus.Completed
      ∧ p.complete.2 = (p.inner.id, JobStatus.Completed))
    ∧ (∀ p : ProcessingJob,
      p.fail.1.inner.id = p.inner.id
      ∧ p.fail.1.inner.staff_group_id = p.inner.staff_group_id
      ∧ p.fail.1.inner.period_begin_date = p.inner.period_begin_date
      ∧ p.fail.1.inner.created_at = p.inner.created_at
      ∧ p.fail.1.inner.updated_at = p.inner.updated_at
      ∧ p.fail.1.inner.status = JobStatus.Failed
      ∧ p.fail.2 = (p.inner.id, JobStatus.Failed))
    ∧ (∀ p : ProcessingJob,
      p.wait_for_retry.1.inner.id = p.inner.id
      ∧ p.wait_for_retry.1.inner.staff_group_id = p.inner.staff_group_id
      ∧ p.wait_for_retry.1.inner.period_begin_date = p.inner.period_begin_date
      ∧ p.wait_for_retry.1.inner.created_at = p.inner.created_at
      ∧ p.wait_for_retry.1.inner.updated_at = p.inner.updated_at
      ∧ p.wait_for_retry.1.inner.status = JobStatus.WaitingForRetry
      ∧ p.wait_for_retry.2 = (p.inner.id, JobStatus.WaitingForRetry))
    ∧ (∀ w : WaitingForRetryJob,
      w.into_pending.1.inner.id = w.inner.id
      ∧ w.into_pending.1.inner.staff_group_id = w.inner.staff_group_id
      ∧ w.into_pending.1.inner.period_begin_date = w.inner.period_begin_date
      ∧ w.into_pending.1.inner.created_at = w.inner.created_at
      ∧ w.into_pending.1.inner.updated_at = w.inner.updated_at
      ∧ w.into_pending.1.inner.status = JobStatus.Pending
      ∧ w.into_pending.2 = (w.inner.id, JobStatus.Pending)) :=
  ⟨fun _ => ⟨rfl, rfl, rfl, rfl, rfl, rfl, rfl⟩,
   fun _ => ⟨rfl, rfl, rfl, rfl, rfl, rfl, rfl⟩,
   fun _ => ⟨rfl, rfl, rfl, rfl, rfl, rfl, rfl⟩,
   fun _ => ⟨rfl, rfl, rfl, rfl, rfl, rfl, rfl⟩,
   fun _ => ⟨rfl, rfl, rfl, rfl, rfl, rfl, rfl⟩⟩

-- C9 ----------------------------------------------------------------

/-- C9: every `record_failure` call — including while the breaker is
already Open — sets `last_failure_time` to the current instant, keeps an
Open breaker Open, and postpones the Open → HalfOpen transition: within a
cooldown of the new stamp `can_execute` still refuses, and `can_execute`
only admits (transitioning to HalfOpen) when a full cooldown has elapsed
since the last recorded failure. -/
theorem record_failure_restamps :
    (∀ (b : CircuitBreaker) (t : Nat),
        (b.record_failure t).last_failure_time = some t)
    ∧ (∀ (b : CircuitBreaker) (t : Nat), b.state = CircuitState.Open →
        (b.record_failure t).state = CircuitState.Open)
    ∧ (∀ (b : CircuitBreaker) (t now : Nat), b.state = CircuitState.Open →
        now - t < b.config.cooldown_secs →
        (b.record_failure t).can_execute now = (false, b.record_failure t))
    ∧ (∀ (b : CircuitBreaker) (now : Nat), b.state = CircuitState.Open →
        ((b.can_execute now).2.state = CircuitState.HalfOpen
          ∨ (b.can_execute now).1 = true) →
        ∃ t, b.last_failure_time = some t ∧ b.config.cooldown_secs ≤ now - t) := by
  refine ⟨?_, ?_, ?_, ?_⟩
  · intro b t
    obtain ⟨s, f, l, cfg⟩ := b
    cases s <;> simp [CircuitBreaker.record_failure] <;> split <;> rfl
  · intro b t h
    obtain ⟨s, f, l, cfg⟩ := b
    cases h
    rfl
  · intro b t now h1 h2
    obtain ⟨s, f, l, cfg⟩ := b
    cases h1
    simp only [CircuitBreaker.record_failure, CircuitBreaker.can_execute]
    simp [Nat.not_le.mpr h2]
  · intro b now h1 h2
    obtain ⟨s, f, l, cfg⟩ := b
    cases h1
    cases l with
    | none => simp [CircuitBreaker.can_execute] at h2
    | some t =>
      by_cases hc : cfg.cooldown_secs ≤ now - t
      · exact ⟨t, rfl, hc⟩
      · simp [CircuitBreaker.can_execute, hc] at h2

/-- Witness for C9 at concrete inputs. -/
theorem record_failure_restamps_witness :
    ((⟨CircuitState.Open, 4, some 0, ⟨3, 30⟩⟩ : CircuitBreaker).record_failure 20).last_failure_time
        = some 20
    ∧ ((⟨CircuitState.Open, 4, some 0, ⟨3, 30⟩⟩ : CircuitBreaker).record_failure 20).can_execute 35
        = (false, (⟨CircuitState.Open, 4, some 0, ⟨3, 30⟩⟩ : CircuitBreaker).record_failure 20) :=
  ⟨record_failure_restamps.1 _ 20,
   record_failure_restamps.2.2.1 _ 20 35 rfl (by decide)⟩

-- C3 ----------------------------------------------------------------

/-- `record_failure` always increments the consecutive-failure counter. -/
theorem record_failure_consecutive (b : CircuitBreaker) (t : Nat) :
    (b.record_failure t).consecutive_failures = b.consecutive_failures + 1 := by
  obtain ⟨s, f, l, cfg⟩ := b
  cases s <;> simp [CircuitBreaker.record_failure] <;> split <;> rfl

/-- `record_failure` never changes the configuration. -/
theorem record_failure_config (b : CircuitBreaker) (t : Nat) :
    (b.record_failure t).config = b.config := by
  obtain ⟨s, f, l, cfg⟩ := b
  cases s <;> simp [CircuitBreaker.record_failure] <;> split <;> rfl

/-- After any `record_failure` call the breaker is Open, or Closed with a
counter still under the threshold. -/
theorem record_failure_establishes (b : CircuitBreaker) (t : Nat) :
    (b.record_failure t).state = CircuitState.Open
    ∨ ((b.record_failure t).state = CircuitState.Closed
        ∧ (b.record_failure t).consecutive_failures < b.config.failure_threshold) := by
  obtain ⟨s, f, l, cfg⟩ := b
  cases s
  · simp only [CircuitBreaker.record_failure]
    split
    · left; rfl
    · next h =>
      right
      refine ⟨rfl, ?_⟩
      have h2 : ¬ (cfg.failure_threshold ≤ f + 1) := h
      show f + 1 < cfg.failure_threshold
      omega
  · left; rfl
  · left; rfl

/-- A fold of `record_failure` calls adds the number of calls to the
counter. -/
theorem record_failures_consecutive (ts : List Nat) :
    ∀ b : CircuitBreaker,
      (b.record_failures ts).consecutive_failures = b.consecutive_failures + ts.length := by
  induction ts with
  | nil => intro b; rfl
  | cons t ts ih =>
    intro b
    have h := ih (b.record_failure t)
    simp only [CircuitBreaker.record_failures, List.foldl_cons] at h ⊢
    rw [h, record_failure_consecutive]
    simp [List.length_cons]
    omega

/-- A fold of `record_failure` calls preserves the configuration. -/
theorem record_failures_config (ts : List Nat) :
    ∀ b : CircuitBreaker, (b.record_failures ts).config = b.config := by
  induction ts with
  | nil => intro b; rfl
  | cons t ts ih =>
    intro b
    have h := ih (b.record_failure t)
    simp only [CircuitBreaker.record_failures, List.foldl_cons] at h ⊢
    rw [h, record_failure_config]

/-- C3 (amended: at least one `record_failure` call is required, since
with a zero threshold and zero calls the breaker is still Closed): from a
fresh breaker, N consecutive `record_failure` calls with N ≥ threshold
and N ≥ 1 leave the state Open; while Open and within cooldown of the
last failure the wrapped client fast-fails with `CircuitOpen` without
invoking the inner client; once the cooldown has elapsed, `can_execute`
transitions to HalfOpen and the call is admitted to the inner client. -/
theorem circuit_breaker_trip_and_halfopen :
    (∀ (cfg : CircuitBreakerConfig) (ts : List Nat),
        1 ≤ ts.length → cfg.failure_threshold ≤ ts.length →
        ((CircuitBreaker.new cfg).record_failures ts).state = CircuitState.Open)
    ∧ (∀ (b : CircuitBreaker) (now t : Nat)
        (inner : Except SchedulingServiceError (List Staff)),
        b.state = CircuitState.Open → b.last_failure_time = some t →
        now - t < b.config.cooldown_secs →
        CircuitBreakerClient.get_resolved_members b now inner
          = (.error SchedulingServiceError.CircuitOpen, b, false))
    ∧ (∀ (b : CircuitBreaker) (now t : Nat)
        (inner : Except SchedulingServiceError (List Staff)),
        b.state = CircuitState.Open → b.last_failure_time = some t →
        b.config.cooldown_secs ≤ now - t →
        (b.can_execute now).1 = true
        ∧ (b.can_execute now).2.state = CircuitState.HalfOpen
        ∧ (CircuitBreakerClient.get_resolved_members b now inner).2.2 = true) := by
  refine ⟨?_, ?_, ?_⟩
  · intro cfg ts h1 h2
    rcases List.eq_nil_or_concat ts with rfl | ⟨L, t, rfl⟩
    · simp at h1
    · have hfold : (CircuitBreaker.new cfg).record_failures (L.concat t)
          = ((CircuitBreaker.new cfg).record_failures L).record_failure t := by
        simp [CircuitBreaker.record_failures, List.concat_eq_append]
      rw [hfold]
      rcases record_failure_establishes ((CircuitBreaker.new cfg).record_failures L) t with
        h | ⟨_, hlt⟩
      · exact h
      · exfalso
        rw [record_failure_consecutive, record_failures_consecutive,
          record_failures_config] at hlt
        simp [CircuitBreaker.new, List.length_concat] at hlt h2
        omega
  · intro b now t inner h1 h2 h3
    obtain ⟨s, f, l, cfg⟩ := b
    cases h1
    cases h2
    have hcan : CircuitBreaker.can_execute ⟨.Open, f, some t, cfg⟩ now
        = (false, ⟨.Open, f, some t, cfg⟩) := by
      simp [CircuitBreaker.can_execute, Nat.not_le.mpr h3]
    simp [CircuitBreakerClient.get_resolved_members, hcan]
  · intro b now t inner h1 h2 h3
    obtain ⟨s, f, l, cfg⟩ := b
    cases h1
    cases h2
    have hcan : CircuitBreaker.can_execute ⟨.Open, f, some t, cfg⟩ now
        = (true, ⟨.HalfOpen, f, some t, cfg⟩) := by
      simp [CircuitBreaker.can_execute, h3]
    refine ⟨by rw [hcan], by rw [hcan], ?_⟩
    simp only [CircuitBreakerClient.get_resolved_members, hcan]
    cases inner <;> simp

/-- Witness for C3 at concrete inputs. -/
theorem circuit_breaker_trip_and_halfopen_witness :
    ((CircuitBreaker.new ⟨0, 30⟩).record_failures [5]).state = CircuitState.Open
    ∧ ((CircuitBreaker.new ⟨2, 30⟩).record_failures [5, 9]).state = CircuitState.Open
    ∧ CircuitBreakerClient.get_resolved_members
        ⟨CircuitState.Open, 2, some 9, ⟨2, 30⟩⟩ 10 (.ok [])
        = (.error SchedulingServiceError.CircuitOpen,
           ⟨CircuitState.Open, 2, some 9, ⟨2, 30⟩⟩, false)
    ∧ (CircuitBreakerClient.get_resolved_members
        ⟨CircuitState.Open, 2, some 9, ⟨2, 30⟩⟩ 50 (.ok [])).2.2 = true :=
  ⟨circuit_breaker_trip_and_halfopen.1 ⟨0, 30⟩ [5] (by decide) (by decide),
   circuit_breaker_trip_and_halfopen.1 ⟨2, 30⟩ [5, 9] (by decide) (by decide),
   circuit_breaker_trip_and_halfopen.2.1 _ 10 9 _ rfl rfl (by decide),
   (circuit_breaker_trip_and_halfopen.2.2 _ 50 9 _ rfl rfl (by decide)).2.2⟩

/-- Counterexample to C3 as stated: with `failure_threshold = 0`, zero
`record_failure` calls satisfy N ≥ threshold, yet the breaker is still
Closed, not Open. -/
theorem circuit_breaker_trip_cex :
    (CircuitBreakerConfig.mk 0 30).failure_threshold ≤ ([] : List Nat).length
    ∧ ((CircuitBreaker.new ⟨0, 30⟩).record_failures []).state ≠ CircuitState.Open := by
  exact ⟨by decide, by decide⟩

-- C8 ----------------------------------------------------------------

/-- C8 (amended: on a successful 2xx probe `check_health` calls
`force_close` unconditionally; when the breaker was already Closed the
state stays Closed and no retry sweep is triggered, but the
consecutive-failure counter and last-failure time are reset rather than
left unchanged). -/
theorem check_health_success_behavior :
    ∀ (b : CircuitBreaker) (retrying : Bool) (now : Nat),
      (check_health b retrying HealthProbe.success now).1 = b.force_close
      ∧ (check_health b retrying HealthProbe.success now).1.state = CircuitState.Closed
      ∧ (b.state = CircuitState.Closed →
          (check_health b retrying HealthProbe.success now).1.state = b.state
          ∧ (check_health b retrying HealthProbe.success now).1.consecutive_failures = 0
          ∧ (check_health b retrying HealthProbe.success now).1.last_failure_time = none
          ∧ (check_health b retrying HealthProbe.success now).2 = false) := by
  intro b retrying now
  refine ⟨rfl, rfl, fun h => ⟨?_, rfl, rfl, ?_⟩⟩
  · rw [h]; rfl
  · simp [check_health, h]

/-- Witness for C8 at concrete inputs. -/
theorem check_health_success_behavior_witness :
    (check_health (CircuitBreaker.new ⟨5, 30⟩) false HealthProbe.success 0).1.state
        = (CircuitBreaker.new ⟨5, 30⟩).state
    ∧ (check_health (CircuitBreaker.new ⟨5, 30⟩) false HealthProbe.success 0).2 = false :=
  ⟨((check_health_success_behavior _ false 0).2.2 rfl).1,
   ((check_health_success_behavior _ false 0).2.2 rfl).2.2.2⟩

/-- Counterexample to C8 as stated: a successful probe on an
already-Closed breaker with 3 accumulated failures resets the counter to
0, so the probe does not leave the consecutive-failure counter unchanged. -/
theorem check_health_success_cex :
    (check_health ⟨CircuitState.Closed, 3, some 5, ⟨5, 30⟩⟩ false
        HealthProbe.success 10).1.consecutive_failures = 0
    ∧ (⟨CircuitState.Closed, 3, some 5, ⟨5, 30⟩⟩ : CircuitBreaker).consecutive_failures = 3
    ∧ (0 : Nat) ≠ 3 := by
  exact ⟨rfl, rfl, by decide⟩

-- C2 ----------------------------------------------------------------

/-- C2: `process_job` first persists Processing, then fetches the roster;
a `CircuitOpen` or `DataServiceUnavailable` fetch failure leaves the
persisted status WaitingForRetry, any other fetch error leaves it Failed,
and on successful fetch and generation the assignments are saved strictly
before the status becomes Completed. -/
theorem process_job_lifecycle :
    ∀ (pj : PendingJob) (fetch : Except SchedulingServiceError (List Staff))
      (rules : List Rule),
      ((process_job pj fetch rules).1)[0]?
          = some (RepoEvent.updateStatus pj.inner.id JobStatus.Processing)
      ∧ ((process_job pj fetch rules).1)[1]?
          = some (RepoEvent.fetchRoster pj.inner.staff_group_id)
      ∧ ((fetch = .error SchedulingServiceError.CircuitOpen
            ∨ ∃ m, fetch = .error (SchedulingServiceError.DataServiceUnavailable m)) →
          persistedStatus (process_job pj fetch rules).1 = some JobStatus.WaitingForRetry)
      ∧ (∀ e, fetch = .error e → e ≠ SchedulingServiceError.CircuitOpen →
          (∀ m, e ≠ SchedulingServiceError.DataServiceUnavailable m) →
          persistedStatus (process_job pj fetch rules).1 = some JobStatus.Failed)
      ∧ (∀ members asg, fetch = .ok members →
          gen_schedule (activeIds members) pj.inner.period_begin_date rules = .ok asg →
          ∃ i j : Nat, i < j
            ∧ ((process_job pj fetch rules).1)[i]?
                = some (RepoEvent.saveAssignments pj.inner.id asg)
            ∧ ((process_job pj fetch rules).1)[j]?
                = some (RepoEvent.updateStatus pj.inner.id JobStatus.Completed)
            ∧ persistedStatus (process_job pj fetch rules).1 = some JobStatus.Completed) := by
  intro pj fetch rules
  obtain ⟨jid, gid, pbdate, stt, ca, ua⟩ := pj
  refine ⟨?_, ?_, ?_, ?_, ?_⟩
  · cases fetch with
    | ok members =>
      cases hg : gen_schedule (activeIds members) pbdate rules with
      | ok asg =>
        simp [process_job, PendingJob.start_processing, ProcessingJob.period_begin_date, hg]
      | error e => cases e with
        | NoValidShift sid day =>
          simp [process_job, PendingJob.start_processing, ProcessingJob.period_begin_date, hg]
    | error e => cases e <;> simp [process_job, PendingJob.start_processing]
  · cases fetch with
    | ok members =>
      cases hg : gen_schedule (activeIds members) pbdate rules with
      | ok asg =>
        simp [process_job, PendingJob.start_processing, ProcessingJob.period_begin_date,
          ProcessingJob.staff_group_id, hg]
      | error e => cases e with
        | NoValidShift sid day =>
          simp [process_job, PendingJob.start_processing, ProcessingJob.period_begin_date,
            ProcessingJob.staff_group_id, hg]
    | error e =>
      cases e <;> simp [process_job, PendingJob.start_processing, ProcessingJob.staff_group_id]
  · rintro (h | ⟨m, h⟩) <;> subst h <;>
      simp [process_job, PendingJob.start_processing, ProcessingJob.wait_for_retry,
        persistedStatus, RepoEvent.statusOf]
  · intro e hf h1 h2
    subst hf
    cases e with
    | NotFound m =>
      simp [process_job, PendingJob.start_processing, ProcessingJob.fail,
        persistedStatus, RepoEvent.statusOf]
    | BadRequest m =>
      simp [process_job, PendingJob.start_processing, ProcessingJob.fail,
        persistedStatus, RepoEvent.statusOf]
    | Internal m =>
      simp [process_job, PendingJob.start_processing, ProcessingJob.fail,
        persistedStatus, RepoEvent.statusOf]
    | Database m =>
      simp [process_job, PendingJob.start_processing, ProcessingJob.fail,
        persistedStatus, RepoEvent.statusOf]
    | DataService m =>
      simp [process_job, PendingJob.start_processing, ProcessingJob.fail,
        persistedStatus, RepoEvent.statusOf]
    | DataServiceUnavailable m => exact absurd rfl (h2 m)
    | CircuitOpen => exact absurd rfl h1
  · intro members asg hf hgen
    subst hf
    refine ⟨2, 3, by omega, ?_, ?_, ?_⟩ <;>
      simp [process_job, PendingJob.start_processing, ProcessingJob.period_begin_date,
        ProcessingJob.complete, hgen, persistedStatus, RepoEvent.statusOf]

/-- Witness for C2 at concrete inputs. -/
theorem process_job_lifecycle_witness :
    persistedStatus (process_job ⟨⟨1, 2, 3, JobStatus.Pending, 0, 0⟩⟩
        (.error SchedulingServiceError.CircuitOpen) []).1
      = some JobStatus.WaitingForRetry :=
  (process_job_lifecycle _ _ _).2.2.1 (Or.inl rfl)

-- C6 ----------------------------------------------------------------

/-- C6: `submit_schedule` returns BadRequest and creates no job when the
period start is not a Monday or is strictly before today; a Monday equal
to today passes validation and the job is created. -/
theorem submit_schedule_validation :
    ∀ (gid : Nat) (d today : Int),
      (isMonday d = false →
        submit_schedule gid d today
          = ([], .error (.BadRequest "period_begin_date must be a Monday")))
      ∧ (isMonday d = true → d < today →
        submit_schedule gid d today
          = ([], .error (.BadRequest "period_begin_date must not be in the past")))
      ∧ (isMonday d = true → d = today →
        submit_schedule gid d today = ([.createJob gid d], .ok ())) := by
  intro gid d today
  refine ⟨?_, ?_, ?_⟩
  · intro h
    simp [submit_schedule, h]
  · intro h1 h2
    simp [submit_schedule, h1, h2]
  · intro h1 h2
    subst h2
    simp [submit_schedule, h1]

-- List helpers ------------------------------------------------------

/-- `getD` after `set` at the same in-bounds index. -/
theorem getD_set_self {α : Type} (l : List α) (i : Nat) (x d : α)
    (h : i < l.length) : (l.set i x).getD i d = x := by
  rw [List.getD_eq_getElem?_getD, List.getElem?_set_self h]
  rfl

/-- `getD` after `set` at a different index. -/
theorem getD_set_ne {α : Type} (l : List α) (i j : Nat) (x d : α)
    (h : i ≠ j) : (l.set i x).getD j d = l.getD j d := by
  rw [List.getD_eq_getElem?_getD, List.getElem?_set_ne h,
    ← List.getD_eq_getElem?_getD]

/-- `Forall₂` is monotone under a pointwise implication that may use
membership in the first list. -/
theorem forall₂_imp_mem {α β : Type} {R S : α → β → Prop} :
    ∀ {l1 : List α} {l2 : List β}, List.Forall₂ R l1 l2 →
      (∀ a b, a ∈ l1 → R a b → S a b) → List.Forall₂ S l1 l2 := by
  intro l1 l2 h
  induction h with
  | nil => intro _; exact .nil
  | @cons a b l1 l2 hR _ ih =>
    intro himp
    exact .cons (himp a b (List.mem_cons_self a l1) hR)
      (ih fun x y hx hr => himp x y (List.mem_cons_of_mem _ hx) hr)

-- Structure of one day of gen_schedule ------------------------------

/-- Core characterization of the inner staff loop: on success it appends
one assignment per processed index (in processing order, carrying that
index's staff id and the day's date), bumps exactly the processed weekly
counters by 1 for a `DayOff` and 0 otherwise, validates every assigned
shift against all rules in the context holding that index's incoming
previous-shift and weekly values, and leaves unprocessed indices
untouched. -/
theorem process_day_staff_spec (sids : List Nat) (rules : List Rule) (date : Int)
    (day drw : Nat) :
    ∀ (order : List Nat) (st : GenState) (mc ec : Nat) (st2 : GenState),
      process_day_staff sids rules date day drw order st mc ec = .ok st2 →
      order.Nodup → (∀ j ∈ order, j < st.weekly_day_offs.length) →
      st2.previous_shifts.length = st.previous_shifts.length
      ∧ st2.weekly_day_offs.length = st.weekly_day_offs.length
      ∧ (∀ j, j ∉ order →
          st2.weekly_day_offs.getD j 0 = st.weekly_day_offs.getD j 0
          ∧ st2.previous_shifts.getD j none = st.previous_shifts.getD j none)
      ∧ ∃ block : List NewShiftAssignment,
          st2.assignments = st.assignments ++ block
          ∧ List.Forall₂ (fun (i : Nat) (a : NewShiftAssignment) =>
              a.staff_id = sids.getD i 0 ∧ a.date = date
              ∧ st2.weekly_day_offs.getD i 0
                  = st.weekly_day_offs.getD i 0 + offInc a.shift_type
              ∧ ∃ mc2 ec2 : Nat,
                  rules.all (fun r => r.is_valid
                    { previous_shift := st.previous_shifts.getD i none
                      day_offs_this_week := st.weekly_day_offs.getD i 0
                      days_remaining_in_week := drw
                      morning_count := mc2
                      evening_count := ec2 } a.shift_type) = true)
            order block := by
  intro order
  induction order with
  | nil =>
    intro st mc ec st2 hok _ _
    cases hok
    exact ⟨rfl, rfl, fun j _ => ⟨rfl, rfl⟩, [], by simp, .nil⟩
  | cons i order ih =>
    intro st mc ec st2 hok hnd hbound
    rw [List.nodup_cons] at hnd
    obtain ⟨hni, hnd2⟩ := hnd
    have hibound : i < st.weekly_day_offs.length := hbound i (List.mem_cons_self i order)
    simp only [process_day_staff] at hok
    split at hok
    · exact Except.noConfusion hok
    · next shift hfind =>
      have hb2 : ∀ j ∈ order,
          j < (if shift = ShiftType.DayOff then
            st.weekly_day_offs.set i (st.weekly_day_offs.getD i 0 + 1)
          else st.weekly_day_offs).length := by
        intro j hj
        have hjl := hbound j (List.mem_cons_of_mem _ hj)
        split
        · simpa [List.length_set] using hjl
        · exact hjl
      obtain ⟨hlen1, hlen2, huntouched, block2, hassign, hf2⟩ :=
        ih _ _ _ st2 hok hnd2 hb2
      dsimp only at hlen1 hlen2 huntouched hassign hf2
      have hwne : ∀ j, j ≠ i →
          (if shift = ShiftType.DayOff then
            st.weekly_day_offs.set i (st.weekly_day_offs.getD i 0 + 1)
          else st.weekly_day_offs).getD j 0 = st.weekly_day_offs.getD j 0 := by
        intro j hj
        split
        · exact getD_set_ne _ _ _ _ _ (Ne.symm hj)
        · rfl
      have hwi : (if shift = ShiftType.DayOff then
            st.weekly_day_offs.set i (st.weekly_day_offs.getD i 0 + 1)
          else st.weekly_day_offs).getD i 0
          = st.weekly_day_offs.getD i 0 + offInc shift := by
        split
        · next h =>
          rw [getD_set_self _ _ _ _ hibound]
          simp [offInc, h]
        · next h =>
          simp [offInc, h]
      have hpne : ∀ j, j ≠ i →
          (st.previous_shifts.set i (some shift)).getD j none
            = st.previous_shifts.getD j none := by
        intro j hj
        exact getD_set_ne _ _ _ _ _ (Ne.symm hj)
      refine ⟨?_, ?_, ?_, ?_⟩
      · rw [hlen1, List.length_set]
      · rw [hlen2]
        split <;> simp [List.length_set]
      · intro j hj
        rw [List.mem_cons] at hj
        push_neg at hj
        obtain ⟨hji, hjo⟩ := hj
        obtain ⟨hw, hp⟩ := huntouched j hjo
        exact ⟨by rw [hw]; exact hwne j hji, by rw [hp]; exact hpne j hji⟩
      · refine ⟨{ staff_id := sids.getD i 0, date := date, shift_type := shift } :: block2,
          ?_, ?_⟩
        · rw [hassign, List.append_assoc, List.singleton_append]
        · refine List.Forall₂.cons ⟨rfl, rfl, ?_, mc, ec, ?_⟩ ?_
          · rw [(huntouched i hni).1, hwi]
          · have h5 := List.find?_some hfind
            simpa using h5
          · refine forall₂_imp_mem hf2 ?_
            intro j a hj hR
            have hji : j ≠ i := fun h => hni (h ▸ hj)
            obtain ⟨h1, h2, h3, mc2, ec2, h4⟩ := hR
            refine ⟨h1, h2, ?_, mc2, ec2, ?_⟩
            · rw [h3, hwne j hji]
            · rw [hpne j hji, hwne j hji] at h4
              exact h4

/-- Left-to-right membership extraction from `Forall₂`. -/
theorem forall₂_mem_left {α β : Type} {R : α → β → Prop} :
    ∀ {l1 : List α} {l2 : List β}, List.Forall₂ R l1 l2 →
      ∀ a ∈ l1, ∃ b ∈ l2, R a b := by
  intro l1 l2 h
  induction h with
  | nil => intro a ha; cases ha
  | @cons x y l1 l2 hR _ ih =>
    intro a ha
    rcases List.mem_cons.mp ha with rfl | ha2
    · exact ⟨y, List.mem_cons_self y l2, hR⟩
    · obtain ⟨b, hb, hRb⟩ := ih a ha2
      exact ⟨b, List.mem_cons_of_mem _ hb, hRb⟩

/-- Right-to-left membership extraction from `Forall₂`. -/
theorem forall₂_mem_right {α β : Type} {R : α → β → Prop} :
    ∀ {l1 : List α} {l2 : List β}, List.Forall₂ R l1 l2 →
      ∀ b ∈ l2, ∃ a ∈ l1, R a b := by
  intro l1 l2 h
  induction h with
  | nil => intro b hb; cases hb
  | @cons x y l1 l2 hR _ ih =>
    intro b hb
    rcases List.mem_cons.mp hb with rfl | hb2
    · exact ⟨x, List.mem_cons_self x l1, hR⟩
    · obtain ⟨a, ha, hRa⟩ := ih b hb2
      exact ⟨a, List.mem_cons_of_mem _ ha, hRa⟩

/-- A `Forall₂` of pointwise image equalities gives a `map` equality. -/
theorem forall₂_map_eq {α β γ : Type} (f : α → γ) (g : β → γ) :
    ∀ {l1 : List α} {l2 : List β},
      List.Forall₂ (fun a b => g b = f a) l1 l2 → l2.map g = l1.map f := by
  intro l1 l2 h
  induction h with
  | nil => rfl
  | cons hR _ ih => simp [List.map_cons, hR, ih]

/-- Mapping `getD` over `range l.length` recovers the list. -/
theorem map_getD_range {α : Type} (d : α) :
    ∀ l : List α, (List.range l.length).map (fun i => l.getD i d) = l := by
  intro l
  induction l with
  | nil => rfl
  | cons x xs ih =>
    rw [List.length_cons, List.range_succ_eq_map, List.map_cons, List.map_map]
    refine congrArg₂ List.cons rfl ?_
    rw [show ((fun i => (x :: xs).getD i d) ∘ Nat.succ) = (fun i => xs.getD i d)
      from rfl, ih]

/-- `getD` of a constant-zero map is zero. -/
theorem getD_map_zero (l : List Nat) (i : Nat) :
    (l.map (fun _ => 0)).getD i 0 = 0 := by
  rw [List.getD_eq_getElem?_getD, List.getElem?_map]
  cases l[i]? <;> rfl

/-- The day block for an arbitrary processing order. -/
theorem gen_day_core (sids : List Nat) (rules : List Rule) (date : Int)
    (day drw : Nat) (order : List Nat) (st1 st2 : GenState)
    (hok : process_day_staff sids rules date day drw order st1 0 0 = .ok st2)
    (hnd : order.Nodup) (hb : ∀ j ∈ order, j < st1.weekly_day_offs.length)
    (hp : st1.previous_shifts.length = sids.length)
    (hw : st1.weekly_day_offs.length = sids.length) :
    st2.previous_shifts.length = sids.length
    ∧ st2.weekly_day_offs.length = sids.length
    ∧ ∃ block : List NewShiftAssignment,
        st2.assignments = st1.assignments ++ block
        ∧ block.map (fun a => a.staff_id) = order.map (fun i => sids.getD i 0)
        ∧ (∀ a ∈ block, a.date = date)
        ∧ (∀ i ∈ order, ∃ a ∈ block,
            a.staff_id = sids.getD i 0
            ∧ st2.weekly_day_offs.getD i 0
                = st1.weekly_day_offs.getD i 0 + offInc a.shift_type
            ∧ ∃ mc2 ec2 : Nat, rules.all (fun r => r.is_valid
                { previous_shift := st1.previous_shifts.getD i none
                  day_offs_this_week := st1.weekly_day_offs.getD i 0
                  days_remaining_in_week := drw
                  morning_count := mc2
                  evening_count := ec2 } a.shift_type) = true) := by
  obtain ⟨h1, h2, _, block, hassign, hf2⟩ :=
    process_day_staff_spec sids rules date day drw order st1 0 0 st2 hok hnd hb
  refine ⟨hp ▸ h1, hw ▸ h2, block, hassign, ?_, ?_, ?_⟩
  · exact forall₂_map_eq (fun i => sids.getD i 0) (fun a => a.staff_id)
      (hf2.imp fun {i a} hR => hR.1)

  · intro a ha
    obtain ⟨i, _, hR⟩ := forall₂_mem_right hf2 a ha
    exact hR.2.1
  · intro i hi
    obtain ⟨a, ha, hR⟩ := forall₂_mem_left hf2 i hi
    exact ⟨a, ha, hR.1, hR.2.2.1, hR.2.2.2⟩

/-- Characterization of one `gen_day` iteration: the appended block lists
the staff ids in forward order on even days and reverse order on odd
days, carries the day's date on every entry, and for each staff index the
weekly counter evolves from its post-reset value by 1 exactly for a
`DayOff`, the assigned shift being validated by all rules against that
context. -/
theorem gen_day_spec (sids : List Nat) (rules : List Rule) (pbd : Int)
    (st : GenState) (day : Nat) (st2 : GenState)
    (hok : gen_day sids rules pbd st day = .ok st2)
    (hp : st.previous_shifts.length = sids.length)
    (hw : st.weekly_day_offs.length = sids.length) :
    st2.previous_shifts.length = sids.length
    ∧ st2.weekly_day_offs.length = sids.length
    ∧ ∃ block : List NewShiftAssignment,
        st2.assignments = st.assignments ++ block
        ∧ block.map (fun a => a.staff_id)
            = (if day % 2 = 0 then sids else sids.reverse)
        ∧ (∀ a ∈ block, a.date = pbd + (day : Int))
        ∧ (∀ i, i < sids.length → ∃ a ∈ block,
            a.staff_id = sids.getD i 0
            ∧ st2.weekly_day_offs.getD i 0
                = (if day % DAYS_PER_WEEK = 0 then 0 else st.weekly_day_offs.getD i 0)
                  + offInc a.shift_type
            ∧ ∃ mc2 ec2 : Nat, rules.all (fun r => r.is_valid
                { previous_shift := st.previous_shifts.getD i none
                  day_offs_this_week :=
                    if day % DAYS_PER_WEEK = 0 then 0 else st.weekly_day_offs.getD i 0
                  days_remaining_in_week := DAYS_PER_WEEK - 1 - day % DAYS_PER_WEEK
                  morning_count := mc2
                  evening_count := ec2 } a.shift_type) = true) := by
  simp only [gen_day] at hok
  by_cases hd7 : day % DAYS_PER_WEEK = 0
  · rw [if_pos hd7] at hok
    by_cases hd2 : day % 2 = 0
    · rw [if_pos hd2] at hok
      obtain ⟨H1, H2, block, HA, HM, HD, HI⟩ :=
        gen_day_core sids rules (pbd + (day : Int)) day
          (DAYS_PER_WEEK - 1 - day % DAYS_PER_WEEK) (List.range sids.length) _ st2 hok
          (List.nodup_range _)
          (by intro j hj; simpa [List.length_map, hw] using List.mem_range.mp hj)
          (by simpa using hp) (by simpa using hw)
      dsimp only at H1 H2 HA HM HD HI
      refine ⟨H1, H2, block, HA, ?_, HD, ?_⟩
      · rw [if_pos hd2, HM, map_getD_range]
      · intro i hi
        obtain ⟨a, ha, e1, e2, e3⟩ := HI i (List.mem_range.mpr hi)
        rw [getD_map_zero] at e2 e3
        rw [if_pos hd7]
        exact ⟨a, ha, e1, e2, e3⟩
    · rw [if_neg hd2] at hok
      obtain ⟨H1, H2, block, HA, HM, HD, HI⟩ :=
        gen_day_core sids rules (pbd + (day : Int)) day
          (DAYS_PER_WEEK - 1 - day % DAYS_PER_WEEK) (List.range sids.length).reverse _ st2 hok
          (List.nodup_reverse.mpr (List.nodup_range _))
          (by intro j hj
              rw [List.mem_reverse] at hj
              simpa [List.length_map, hw] using List.mem_range.mp hj)
          (by simpa using hp) (by simpa using hw)
      dsimp only at H1 H2 HA HM HD HI
      refine ⟨H1, H2, block, HA, ?_, HD, ?_⟩
      · rw [if_neg hd2, HM, List.map_reverse, map_getD_range]
      · intro i hi
        obtain ⟨a, ha, e1, e2, e3⟩ :=
          HI i (List.mem_reverse.mpr (List.mem_range.mpr hi))
        rw [getD_map_zero] at e2 e3
        rw [if_pos hd7]
        exact ⟨a, ha, e1, e2, e3⟩
  · rw [if_neg hd7] at hok
    by_cases hd2 : day % 2 = 0
    · rw [if_pos hd2] at hok
      obtain ⟨H1, H2, block, HA, HM, HD, HI⟩ :=
        gen_day_core sids rules (pbd + (day : Int)) day
          (DAYS_PER_WEEK - 1 - day % DAYS_PER_WEEK) (List.range sids.length) _ st2 hok
          (List.nodup_range _)
          (by intro j hj; simpa [hw] using List.mem_range.mp hj)
          hp hw
      refine ⟨H1, H2, block, HA, ?_, HD, ?_⟩
      · rw [if_pos hd2, HM, map_getD_range]
      · intro i hi
        obtain ⟨a, ha, e1, e2, e3⟩ := HI i (List.mem_range.mpr hi)
        rw [if_neg hd7]
        exact ⟨a, ha, e1, e2, e3⟩
    · rw [if_neg hd2] at hok
      obtain ⟨H1, H2, block, HA, HM, HD, HI⟩ :=
        gen_day_core sids rules (pbd + (day : Int)) day
          (DAYS_PER_WEEK - 1 - day % DAYS_PER_WEEK) (List.range sids.length).reverse _ st2 hok
          (List.nodup_reverse.mpr (List.nodup_range _))
          (by intro j hj
              rw [List.mem_reverse] at hj
              simpa [hw] using List.mem_range.mp hj)
          hp hw
      refine ⟨H1, H2, block, HA, ?_, HD, ?_⟩
      · rw [if_neg hd2, HM, List.map_reverse, map_getD_range]
      · intro i hi
        obtain ⟨a, ha, e1, e2, e3⟩ :=
          HI i (List.mem_reverse.mpr (List.mem_range.mpr hi))
        rw [if_neg hd7]
        exact ⟨a, ha, e1, e2, e3⟩

/-- The day loop appends one block per day, each of the `dayBlockSpec`
shape, and preserves the state-vector lengths. -/
theorem gen_days_spec (sids : List Nat) (rules : List Rule) (pbd : Int) :
    ∀ (ds : List Nat) (st st2 : GenState),
      gen_days sids rules pbd ds st = .ok st2 →
      st.previous_shifts.length = sids.length →
      st.weekly_day_offs.length = sids.length →
      st2.previous_shifts.length = sids.length
      ∧ st2.weekly_day_offs.length = sids.length
      ∧ ∃ blocks : List (List NewShiftAssignment),
          st2.assignments = st.assignments ++ blocks.flatten
          ∧ List.Forall₂ (dayBlockSpec sids pbd) ds blocks := by
  intro ds
  induction ds with
  | nil =>
    intro st st2 hok hp hw
    cases hok
    exact ⟨hp, hw, [], by simp, .nil⟩
  | cons d ds ih =>
    intro st st2 hok hp hw
    simp only [gen_days] at hok
    split at hok
    · next st1 heq =>
      obtain ⟨H1, H2, block, HA, HM, HD, _⟩ :=
        gen_day_spec sids rules pbd st d st1 heq hp hw
      obtain ⟨K1, K2, blocks, KA, KF⟩ := ih st1 st2 hok H1 H2
      exact ⟨K1, K2, block :: blocks,
        by rw [KA, HA, List.flatten_cons, List.append_assoc],
        .cons ⟨HM, HD⟩ KF⟩
    · next e heq => exact Except.noConfusion hok

/-- A block list of `dayBlockSpec` shape has one entry per staff per day. -/
theorem blocks_length (sids : List Nat) (pbd : Int) :
    ∀ {ds : List Nat} {blocks : List (List NewShiftAssignment)},
      List.Forall₂ (dayBlockSpec sids pbd) ds blocks →
      blocks.flatten.length = ds.length * sids.length := by
  intro ds blocks hf
  induction hf with
  | nil => simp
  | @cons d blk ds blocks hQ _ ih =>
    rw [List.flatten_cons, List.length_append, ih]
    have hb : blk.length = sids.length := by
      have := congrArg List.length hQ.1
      rw [List.length_map] at this
      rw [this]
      split <;> simp
    rw [hb, List.length_cons]
    ring

/-- In a `Nodup` list, counting occurrences of a member gives 1. -/
theorem countP_eq_one_of_nodup :
    ∀ {l : List Nat}, l.Nodup → ∀ {s : Nat}, s ∈ l →
      l.countP (fun x => decide (x = s)) = 1 := by
  intro l
  induction l with
  | nil => intro _ s hs; cases hs
  | cons x xs ih =>
    intro hnd s hs
    rw [List.nodup_cons] at hnd
    obtain ⟨hx, hnd2⟩ := hnd
    rw [List.countP_cons]
    rcases List.mem_cons.mp hs with rfl | hs2
    · have h0 : xs.countP (fun x => decide (x = s)) = 0 := by
        rw [List.countP_eq_zero]
        intro y hy
        simp only [decide_eq_true_eq]
        intro hys
        exact hx (hys ▸ hy)
      simp [h0]
    · have hxs : ¬ (x = s) := fun h => hx (h ▸ hs2)
      simp [hxs, ih hnd2 hs2]

/-- Two distinct members both satisfying a predicate force a count of at
least 2. -/
theorem two_le_countP {α : Type} (p : α → Bool) :
    ∀ (l : List α) (a b : α), a ∈ l → b ∈ l → a ≠ b → p a = true → p b = true →
      2 ≤ l.countP p := by
  intro l
  induction l with
  | nil => intro a b ha; cases ha
  | cons x xs ih =>
    intro a b ha hb hab hpa hpb
    rw [List.countP_cons]
    rcases List.mem_cons.mp ha with rfl | ha2
    · have hbx : b ∈ xs := by
        rcases List.mem_cons.mp hb with rfl | h
        · exact absurd rfl hab
        · exact h
      have h1 : 0 < xs.countP p := List.countP_pos.mpr ⟨b, hbx, hpb⟩
      rw [if_pos hpa]
      omega
    · rcases List.mem_cons.mp hb with rfl | hb2
      · have h1 : 0 < xs.countP p := List.countP_pos.mpr ⟨a, ha2, hpa⟩
        rw [if_pos hpb]
        omega
      · have h2 := ih a b ha2 hb2 hab hpa hpb
        split <;> omega

/-- The per-staff count of entries in a day block. -/
theorem dayBlock_countP_staff (sids : List Nat) (pbd : Int) (d : Nat)
    (blk : List NewShiftAssignment) (hQ : dayBlockSpec sids pbd d blk)
    (hnd : sids.Nodup) (s : Nat) :
    blk.countP (fun a => decide (a.staff_id = s))
      = if s ∈ sids then 1 else 0 := by
  have hmap : blk.countP (fun a => decide (a.staff_id = s))
      = (blk.map (fun a => a.staff_id)).countP (fun x => decide (x = s)) := by
    rw [List.countP_map]
    rfl
  rw [hmap, hQ.1]
  have hrev : ∀ L : List Nat, (L.reverse).countP (fun x => decide (x = s))
      = L.countP (fun x => decide (x = s)) :=
    fun L => (List.reverse_perm L).countP_eq _
  have hbase : sids.countP (fun x => decide (x = s)) = if s ∈ sids then 1 else 0 := by
    by_cases hs : s ∈ sids
    · rw [if_pos hs, countP_eq_one_of_nodup hnd hs]
    · rw [if_neg hs, List.countP_eq_zero]
      intro y hy
      simp only [decide_eq_true_eq]
      intro hys
      exact hs (hys ▸ hy)
  split
  · exact hbase
  · rw [hrev]
    exact hbase

/-- The per-(staff, date) count over a `dayBlockSpec`-shaped block list:
1 when the date is one of the listed days and the staff is in the (Nodup)
list, 0 otherwise. -/
theorem countAsg_blocks (sids : List Nat) (pbd : Int) (s : Nat) (hnd : sids.Nodup) :
    ∀ {ds : List Nat} {blocks : List (List NewShiftAssignment)},
      List.Forall₂ (dayBlockSpec sids pbd) ds blocks → ds.Nodup →
      ∀ dt : Int, countAsg blocks.flatten s dt
        = if (∃ d ∈ ds, pbd + (d : Int) = dt) ∧ s ∈ sids then 1 else 0 := by
  intro ds blocks hf
  induction hf with
  | nil =>
    intro _ dt
    simp [countAsg]
  | @cons d blk ds blocks hQ _ ih =>
    intro hnd2 dt
    rw [List.nodup_cons] at hnd2
    obtain ⟨hd_not, hnd3⟩ := hnd2
    rw [List.flatten_cons]
    rw [countAsg, List.countP_append]
    by_cases hdt : pbd + (d : Int) = dt
    · have hblk : blk.countP (fun a => decide (a.staff_id = s ∧ a.date = dt))
          = if s ∈ sids then 1 else 0 := by
        have hcg : blk.countP (fun a => decide (a.staff_id = s ∧ a.date = dt))
            = blk.countP (fun a => decide (a.staff_id = s)) := by
          refine List.countP_congr ?_
          intro a ha
          have hda := hQ.2 a ha
          simp only [decide_eq_true_eq]
          constructor
          · exact fun h => h.1
          · exact fun h => ⟨h, by rw [hda, hdt]⟩
        rw [hcg]
        exact dayBlock_countP_staff sids pbd d blk hQ hnd s
      have hrest : countAsg blocks.flatten s dt = 0 := by
        rw [ih hnd3 dt, if_neg]
        rintro ⟨⟨d2, hd2, he2⟩, _⟩
        have : (d2 : Int) = (d : Int) := by omega
        rw [Nat.cast_inj] at this
        exact hd_not (this ▸ hd2)
      rw [show countAsg blocks.flatten s dt
          = blocks.flatten.countP (fun a => decide (a.staff_id = s ∧ a.date = dt))
          from rfl] at hrest
      rw [hblk, hrest]
      have hcond : ((∃ d2 ∈ d :: ds, pbd + (d2 : Int) = dt) ∧ s ∈ sids) ↔ s ∈ sids := by
        constructor
        · exact fun h => h.2
        · exact fun h => ⟨⟨d, List.mem_cons_self d ds, hdt⟩, h⟩
      rw [if_congr hcond rfl rfl]
      split <;> rfl
    · have hblk : blk.countP (fun a => decide (a.staff_id = s ∧ a.date = dt)) = 0 := by
        rw [List.countP_eq_zero]
        intro a ha
        have hda := hQ.2 a ha
        simp only [decide_eq_true_eq]
        rintro ⟨_, h2⟩
        exact hdt (hda ▸ h2)
      have hcond : ((∃ d2 ∈ d :: ds, pbd + (d2 : Int) = dt) ∧ s ∈ sids)
          ↔ ((∃ d2 ∈ ds, pbd + (d2 : Int) = dt) ∧ s ∈ sids) := by
        constructor
        · rintro ⟨⟨d2, hd2, he2⟩, hs⟩
          rcases List.mem_cons.mp hd2 with rfl | hd3
          · exact absurd he2 hdt
          · exact ⟨⟨d2, hd3, he2⟩, hs⟩
        · rintro ⟨⟨d2, hd2, he2⟩, hs⟩
          exact ⟨⟨d2, List.mem_cons_of_mem _ hd2, he2⟩, hs⟩
      rw [hblk, if_congr hcond rfl rfl]
      have := ih hnd3 dt
      rw [show countAsg blocks.flatten s dt
          = blocks.flatten.countP (fun a => decide (a.staff_id = s ∧ a.date = dt))
          from rfl] at this
      omega

-- C1 ----------------------------------------------------------------

/-- C1 (amended: the staff identifier list must have no duplicates; with
a duplicated id the same (staff_id, date) pair appears twice): on success
`gen_schedule` returns `|staff| × 28` assignments, exactly one per staff
per day of the 28-day window, with no (staff_id, date) pair occurring
twice; on failure the error is `NoValidShift` (the only error the
generator can produce). -/
theorem gen_schedule_complete (sids : List Nat) (pbd : Int) (rules : List Rule)
    (hnd : sids.Nodup) (asg : List NewShiftAssignment)
    (hok : gen_schedule sids pbd rules = .ok asg) :
    asg.length = sids.length * PERIOD_DAYS
    ∧ (∀ s ∈ sids, ∀ k : Nat, k < PERIOD_DAYS → countAsg asg s (pbd + (k : Int)) = 1)
    ∧ (∀ (s : Nat) (dt : Int), countAsg asg s dt ≤ 1) := by
  simp only [gen_schedule] at hok
  split at hok
  · next st heq =>
    injection hok with hasg
    subst hasg
    obtain ⟨_, _, blocks, HA, HF⟩ :=
      gen_days_spec sids rules pbd (List.range PERIOD_DAYS) _ st heq
        (by simp) (by simp)
    simp only [List.nil_append] at HA
    rw [HA]
    refine ⟨?_, ?_, ?_⟩
    · rw [blocks_length sids pbd HF, List.length_range]
      exact Nat.mul_comm _ _
    · intro s hs k hk
      rw [countAsg_blocks sids pbd s hnd HF (List.nodup_range _) (pbd + (k : Int)),
        if_pos ⟨⟨k, List.mem_range.mpr hk, rfl⟩, hs⟩]
    · intro s dt
      rw [countAsg_blocks sids pbd s hnd HF (List.nodup_range _) dt]
      split <;> omega
  · next e heq => exact Except.noConfusion hok

/-- Witness for C1 at a concrete input. -/
theorem gen_schedule_complete_witness :
    (gen_schedule [0, 1] 0 []).toOption.map List.length = some 56
    ∧ (gen_schedule [0, 1] 0 []).toOption.map (fun asg => countAsg asg 0 0) = some 1 := by
  cases hg : gen_schedule [0, 1] 0 [] with
  | error e =>
    have hdec : (gen_schedule [0, 1] 0 []).toOption.isSome = true := by decide
    rw [hg] at hdec
    simp [Except.toOption] at hdec
  | ok asg =>
    have h := gen_schedule_complete [0, 1] 0 [] (by decide) asg hg
    have h1 := h.1
    have h2 := h.2.1 0 (by decide) 0 (by decide)
    constructor
    · simp only [Except.toOption, hg]
      rw [show Option.map List.length (some asg) = some asg.length from rfl, h1]
      rfl
    · simp only [Except.toOption, hg]
      rw [show ((0 : Int) + ((0 : Nat) : Int)) = 0 from rfl] at h2
      rw [show Option.map (fun asg => countAsg asg 0 0) (some asg)
        = some (countAsg asg 0 0) from rfl, h2]

/-- Counterexample to C1 as stated: with the duplicated staff list
`[0, 0]` the schedule succeeds but the pair (staff 0, first date) occurs
twice. -/
theorem gen_schedule_complete_cex :
    (gen_schedule [0, 0] 0 []).toOption.map (fun asg => countAsg asg 0 0) = some 2 := by
  decide

/-- If `MaxDayOffRule mx` is among passing rules and the candidate is a
`DayOff`, the weekly counter is under `mx`. -/
theorem all_rule_max {rules : List Rule} {mx : Nat}
    (hmem : Rule.MaxDayOffRule mx ∈ rules) {ctx : AssignmentContext} {c : ShiftType}
    (hall : rules.all (fun r => r.is_valid ctx c) = true)
    (hc : c = ShiftType.DayOff) : ctx.day_offs_this_week < mx := by
  have h := List.all_eq_true.mp hall _ hmem
  rw [hc] at h
  simpa [Rule.is_valid] using h

/-- If `MinDayOffRule mn` is among passing rules and the candidate is a
working shift, the counter plus remaining days covers `mn`. -/
theorem all_rule_min {rules : List Rule} {mn : Nat}
    (hmem : Rule.MinDayOffRule mn ∈ rules) {ctx : AssignmentContext} {c : ShiftType}
    (hall : rules.all (fun r => r.is_valid ctx c) = true)
    (hc : c ≠ ShiftType.DayOff) :
    mn ≤ ctx.day_offs_this_week + ctx.days_remaining_in_week := by
  have h := List.all_eq_true.mp hall _ hmem
  simpa [Rule.is_valid, hc] using h

/-- An in-bounds `getD` is a member. -/
theorem getD_mem {l : List Nat} {i : Nat} (hi : i < l.length) : l.getD i 0 ∈ l := by
  rw [List.getD_eq_getElem l 0 hi]
  exact List.getElem_mem hi

/-- In a day block whose day lies in week `w`, the week-`w` `DayOff` count
of a staff with a unique id equals 1 or 0 according to the shift that
staff received that day. -/
theorem dayBlock_countOff (sids : List Nat) (pbd : Int) (d : Nat)
    (blk : List NewShiftAssignment) (hQ : dayBlockSpec sids pbd d blk)
    (hnd : sids.Nodup) (s : Nat) (hs : s ∈ sids)
    (a : NewShiftAssignment) (ha : a ∈ blk) (has : a.staff_id = s)
    (w : Nat) (hlo : 7 * w ≤ d) (hhi : d < 7 * w + 7) :
    countOffWeek blk s pbd w = offInc a.shift_type := by
  have hlo2 : (7 * w : Int) ≤ (d : Int) := by exact_mod_cast hlo
  have hhi2 : (d : Int) < 7 * (w : Int) + 7 := by exact_mod_cast hhi
  have hwindow : ∀ b ∈ blk,
      pbd + 7 * (w : Int) ≤ b.date ∧ b.date < pbd + 7 * (w : Int) + 7 := by
    intro b hb
    rw [hQ.2 b hb]
    constructor <;> omega
  have hcg : countOffWeek blk s pbd w
      = blk.countP (fun b => decide (b.staff_id = s
          ∧ b.shift_type = ShiftType.DayOff)) := by
    refine List.countP_congr ?_
    intro b hb
    simp only [decide_eq_true_eq]
    have hw2 := hwindow b hb
    constructor
    · rintro ⟨x1, x2, _, _⟩
      exact ⟨x1, x2⟩
    · rintro ⟨x1, x2⟩
      exact ⟨x1, x2, hw2.1, hw2.2⟩
  have hstaff : blk.countP (fun b => decide (b.staff_id = s)) = 1 := by
    rw [dayBlock_countP_staff sids pbd d blk hQ hnd s, if_pos hs]
  rw [hcg]
  by_cases hoff : a.shift_type = ShiftType.DayOff
  · have hle : blk.countP (fun b => decide (b.staff_id = s
        ∧ b.shift_type = ShiftType.DayOff))
        ≤ blk.countP (fun b => decide (b.staff_id = s)) := by
      refine List.countP_mono_left ?_
      intro b _ hpb
      simp only [decide_eq_true_eq] at hpb ⊢
      exact hpb.1
    have hge : 0 < blk.countP (fun b => decide (b.staff_id = s
        ∧ b.shift_type = ShiftType.DayOff)) := by
      refine List.countP_pos.mpr ⟨a, ha, ?_⟩
      simp [has, hoff]
    simp only [offInc, if_pos hoff]
    omega
  · have hz : blk.countP (fun b => decide (b.staff_id = s
        ∧ b.shift_type = ShiftType.DayOff)) = 0 := by
      by_contra h0
      obtain ⟨b, hb, hpb⟩ := List.countP_pos.mp (Nat.pos_of_ne_zero h0)
      simp only [decide_eq_true_eq] at hpb
      have hba : a ≠ b := fun h => hoff (h ▸ hpb.2)
      have h2 := two_le_countP (fun b => decide (b.staff_id = s)) blk a b ha hb hba
        (by simp [has]) (by simp [hpb.1])
      omega
    simp only [offInc, if_neg hoff]
    exact hz

/-- A successful run over an appended day list splits into two runs. -/
theorem gen_days_append_ok (sids : List Nat) (rules : List Rule) (pbd : Int) :
    ∀ (l1 l2 : List Nat) (st st2 : GenState),
      gen_days sids rules pbd (l1 ++ l2) st = .ok st2 →
      ∃ st1, gen_days sids rules pbd l1 st = .ok st1
        ∧ gen_days sids rules pbd l2 st1 = .ok st2 := by
  intro l1
  induction l1 with
  | nil =>
    intro l2 st st2 h
    exact ⟨st, rfl, h⟩
  | cons d l1 ih =>
    intro l2 st st2 h
    simp only [List.cons_append, gen_days] at h ⊢
    split at h
    · next st1 heq =>
      obtain ⟨stm, h1, h2⟩ := ih l2 st1 st2 h
      exact ⟨stm, h1, h2⟩
    · next e heq => exact Except.noConfusion h

/-- One day inside a week preserves the week invariant: the `MaxDayOff`
rule caps the counter, the `MinDayOff` rule keeps the minimum reachable,
and the counter tracks the week's `DayOff` count. -/
theorem week_step (sids : List Nat) (rules : List Rule) (pbd : Int)
    (mn mx : Nat) (hmaxr : Rule.MaxDayOffRule mx ∈ rules)
    (hminr : Rule.MinDayOffRule mn ∈ rules) (hmin7 : mn ≤ 7)
    (hnd : sids.Nodup) (i : Nat) (hi : i < sids.length)
    (w j : Nat) (hj : j ≤ 6) (st st1 : GenState)
    (hok : gen_day sids rules pbd st (7 * w + j) = .ok st1)
    (hp : st.previous_shifts.length = sids.length)
    (hw : st.weekly_day_offs.length = sids.length)
    (hinv : weekInv i (sids.getD i 0) pbd mn mx w j st) :
    st1.previous_shifts.length = sids.length
    ∧ st1.weekly_day_offs.length = sids.length
    ∧ weekInv i (sids.getD i 0) pbd mn mx w (j + 1) st1 := by
  obtain ⟨H1, H2, block, HA, HM, HD, HI⟩ :=
    gen_day_spec sids rules pbd st (7 * w + j) st1 hok hp hw
  have hmod : (7 * w + j) % DAYS_PER_WEEK = j := by
    simp only [DAYS_PER_WEEK]
    omega
  obtain ⟨a, ha, ha_staff, ha_week, mc2, ec2, ha_valid⟩ := HI i hi
  rw [hmod] at ha_week ha_valid
  have hs : sids.getD i 0 ∈ sids := getD_mem hi
  have hblkcount : countOffWeek block (sids.getD i 0) pbd w = offInc a.shift_type :=
    dayBlock_countOff sids pbd (7 * w + j) block ⟨HM, HD⟩ hnd _ hs a ha ha_staff w
      (Nat.le_add_right _ _) (by omega)
  have hsum : countOffWeek st1.assignments (sids.getD i 0) pbd w
      = countOffWeek st.assignments (sids.getD i 0) pbd w + offInc a.shift_type := by
    rw [HA]
    rw [show countOffWeek (st.assignments ++ block) (sids.getD i 0) pbd w
        = countOffWeek st.assignments (sids.getD i 0) pbd w
          + countOffWeek block (sids.getD i 0) pbd w from List.countP_append _ _ _]
    rw [hblkcount]
  have hdates : ∀ b ∈ st1.assignments,
      b.date < pbd + 7 * (w : Int) + ((j + 1 : Nat) : Int) := by
    intro b hb
    rw [HA] at hb
    rcases List.mem_append.mp hb with hb1 | hb2
    · have hd1 := hinv.2 b hb1
      have hjc : ((j + 1 : Nat) : Int) = (j : Int) + 1 := by push_cast; ring
      omega
    · rw [HD b hb2]
      have h1 : ((7 * w + j : Nat) : Int) = 7 * (w : Int) + (j : Int) := by push_cast; ring
      have hjc : ((j + 1 : Nat) : Int) = (j : Int) + 1 := by push_cast; ring
      omega
  by_cases hj0 : j = 0
  · have hc0 : (if j = 0 then 0 else st.weekly_day_offs.getD i 0) = 0 := if_pos hj0
    rw [hc0] at ha_week ha_valid
    have hold : countOffWeek st.assignments (sids.getD i 0) pbd w = 0 := by
      refine List.countP_eq_zero.mpr ?_
      intro b hb
      simp only [decide_eq_true_eq]
      rintro ⟨_, _, hge, _⟩
      have hd1 := hinv.2 b hb
      rw [hj0] at hd1
      have hz : ((0 : Nat) : Int) = 0 := rfl
      omega
    refine ⟨H1, H2, fun _ => ?_, hdates⟩
    subst hj0
    by_cases hoff : a.shift_type = ShiftType.DayOff
    · have hoi : offInc a.shift_type = 1 := by simp [offInc, hoff]
      have hmaxf : (0 : Nat) < mx := all_rule_max hmaxr ha_valid hoff
      refine ⟨by omega, by omega, by omega⟩
    · have hoi : offInc a.shift_type = 0 := by simp [offInc, hoff]
      have hminf : mn ≤ 0 + (7 - 1 - 0) := all_rule_min hminr ha_valid hoff
      refine ⟨by omega, by omega, by omega⟩
  · have hc0 : (if j = 0 then 0 else st.weekly_day_offs.getD i 0)
        = st.weekly_day_offs.getD i 0 := if_neg hj0
    rw [hc0] at ha_week ha_valid
    obtain ⟨hA1, hA2, hA3⟩ := hinv.1 (by omega)
    refine ⟨H1, H2, fun _ => ?_, hdates⟩
    by_cases hoff : a.shift_type = ShiftType.DayOff
    · have hoi : offInc a.shift_type = 1 := by simp [offInc, hoff]
      have hmaxf : st.weekly_day_offs.getD i 0 < mx :=
        all_rule_max hmaxr ha_valid hoff
      refine ⟨by omega, by omega, by omega⟩
    · have hoi : offInc a.shift_type = 0 := by simp [offInc, hoff]
      have hminf : mn ≤ st.weekly_day_offs.getD i 0 + (7 - 1 - j) :=
        all_rule_min hminr ha_valid hoff
      refine ⟨by omega, by omega, by omega⟩

/-- Running the remaining days of a week carries the week invariant to
its end. -/
theorem week_run (sids : List Nat) (rules : List Rule) (pbd : Int)
    (mn mx : Nat) (hmaxr : Rule.MaxDayOffRule mx ∈ rules)
    (hminr : Rule.MinDayOffRule mn ∈ rules) (hmin7 : mn ≤ 7)
    (hnd : sids.Nodup) (i : Nat) (hi : i < sids.length) (w : Nat) :
    ∀ (m j : Nat), j + m = 7 →
      ∀ (st st2 : GenState),
        gen_days sids rules pbd (List.range' (7 * w + j) m) st = .ok st2 →
        st.previous_shifts.length = sids.length →
        st.weekly_day_offs.length = sids.length →
        weekInv i (sids.getD i 0) pbd mn mx w j st →
        st2.previous_shifts.length = sids.length
        ∧ st2.weekly_day_offs.length = sids.length
        ∧ weekInv i (sids.getD i 0) pbd mn mx w 7 st2 := by
  intro m
  induction m with
  | zero =>
    intro j hj st st2 hok hp hw hinv
    have hok2 : (Except.ok st : Except SchedulingError GenState) = .ok st2 := hok
    cases hok2
    have hj7 : j = 7 := by omega
    subst hj7
    exact ⟨hp, hw, hinv⟩
  | succ m ih =>
    intro j hj st st2 hok hp hw hinv
    rw [List.range'_succ] at hok
    simp only [gen_days] at hok
    split at hok
    · next st1 heq =>
      obtain ⟨P1, P2, Pinv⟩ := week_step sids rules pbd mn mx hmaxr hminr hmin7
        hnd i hi w j (by omega) st st1 heq hp hw hinv
      exact ih (j + 1) (by omega) st1 st2 hok P1 P2 Pinv
    · next e heq => exact Except.noConfusion hok

-- C5 ----------------------------------------------------------------

/-- C5 (amended: the staff list must have no duplicates — with staff
list `[0, 0]` and `min = max = 1` staff 0 gets 2 day-offs in a week — and
`min ≤ 7` must hold — with `min = max = 8` every day is a `DayOff` yet
the week count is 7 < min): for every schedule successfully returned by
`gen_schedule` with a rule list containing `MaxDayOffRule max` and
`MinDayOffRule min` with `min ≤ max`, every staff member has between
`min` and `max` `DayOff` assignments in each of the four 7-day weeks. -/
theorem gen_schedule_weekly_day_off_bounds (sids : List Nat) (pbd : Int)
    (rules : List Rule) (mn mx : Nat)
    (hmaxr : Rule.MaxDayOffRule mx ∈ rules) (hminr : Rule.MinDayOffRule mn ∈ rules)
    (hmm : mn ≤ mx) (hmin7 : mn ≤ 7) (hnd : sids.Nodup)
    (asg : List NewShiftAssignment)
    (hok : gen_schedule sids pbd rules = .ok asg) :
    ∀ s ∈ sids, ∀ w : Nat, w < 4 →
      mn ≤ countOffWeek asg s pbd w ∧ countOffWeek asg s pbd w ≤ mx := by
  intro s hs w hw4
  obtain ⟨i, hi, hsi⟩ := List.mem_iff_getElem.mp hs
  have hgd : sids.getD i 0 = s := by
    rw [List.getD_eq_getElem _ _ hi]
    exact hsi
  simp only [gen_schedule] at hok
  split at hok
  · next st heq =>
    injection hok with hasg
    subst hasg
    have hsplit : List.range PERIOD_DAYS
        = List.range' 0 (7 * w)
          ++ (List.range' (7 * w) 7 ++ List.range' (7 * w + 7) (21 - 7 * w)) := by
      rw [List.range_eq_range']
      have e1 : List.range' (7 * w) 7 ++ List.range' (7 * w + 7) (21 - 7 * w)
          = List.range' (7 * w) ((21 - 7 * w) + 7) := by
        have h := List.range'_append (7 * w) 7 (21 - 7 * w) 1
        simpa using h
      have e2 : List.range' 0 (7 * w) ++ List.range' (7 * w) ((21 - 7 * w) + 7)
          = List.range' 0 (((21 - 7 * w) + 7) + 7 * w) := by
        have h := List.range'_append 0 (7 * w) ((21 - 7 * w) + 7) 1
        simpa using h
      rw [e1, e2]
      congr 1
      simp only [PERIOD_DAYS]
      omega
    rw [hsplit] at heq
    obtain ⟨stA, hA1, hA2⟩ := gen_days_append_ok sids rules pbd _ _ _ _ heq
    obtain ⟨stB, hB1, hB2⟩ := gen_days_append_ok sids rules pbd _ _ _ _ hA2
    obtain ⟨LA1, LA2, blocksA, GA, GFA⟩ :=
      gen_days_spec sids rules pbd _ _ stA hA1 (by simp) (by simp)
    have hdatesA : ∀ b ∈ stA.assignments,
        b.date < pbd + 7 * (w : Int) + ((0 : Nat) : Int) := by
      intro b hb
      rw [GA] at hb
      simp only [List.nil_append] at hb
      obtain ⟨blk, hblk, hbin⟩ := List.mem_flatten.mp hb
      obtain ⟨d, hd, hQ⟩ := forall₂_mem_right GFA blk hblk
      have hdlt : d < 7 * w := by
        have h2 := (List.mem_range'_1.mp hd).2
        omega
      rw [hQ.2 b hbin]
      have hc : (d : Int) < 7 * (w : Int) := by exact_mod_cast hdlt
      have hz : ((0 : Nat) : Int) = 0 := rfl
      omega
    have hinv0 : weekInv i (sids.getD i 0) pbd mn mx w 0 stA :=
      ⟨fun h => absurd h (by omega), hdatesA⟩
    obtain ⟨LB1, LB2, WInv⟩ := week_run sids rules pbd mn mx hmaxr hminr hmin7
      hnd i hi w 7 0 (by omega) stA stB hB1 LA1 LA2 hinv0
    obtain ⟨W1, W2, W3⟩ := WInv.1 (by omega)
    obtain ⟨LC1, LC2, blocksC, GC, GFC⟩ :=
      gen_days_spec sids rules pbd _ _ st hB2 LB1 LB2
    have hCeq : countOffWeek st.assignments (sids.getD i 0) pbd w
        = countOffWeek stB.assignments (sids.getD i 0) pbd w := by
      rw [GC]
      rw [show countOffWeek (stB.assignments ++ blocksC.flatten) (sids.getD i 0) pbd w
          = countOffWeek stB.assignments (sids.getD i 0) pbd w
            + countOffWeek blocksC.flatten (sids.getD i 0) pbd w
          from List.countP_append _ _ _]
      have hz : countOffWeek blocksC.flatten (sids.getD i 0) pbd w = 0 := by
        refine List.countP_eq_zero.mpr ?_
        intro b hb
        obtain ⟨blk, hblk, hbin⟩ := List.mem_flatten.mp hb
        obtain ⟨d, hd, hQ⟩ := forall₂_mem_right GFC blk hblk
        have hdge : 7 * w + 7 ≤ d := (List.mem_range'_1.mp hd).1
        simp only [decide_eq_true_eq]
        rintro ⟨_, _, _, hlt⟩
        rw [hQ.2 b hbin] at hlt
        have hc : ((7 * w + 7 : Nat) : Int) ≤ (d : Int) := by exact_mod_cast hdge
        have hc2 : ((7 * w + 7 : Nat) : Int) = 7 * (w : Int) + 7 := by push_cast; ring
        omega
      omega
    rw [hgd] at W3 hCeq
    constructor
    · omega
    · omega
  · next e heq => exact Except.noConfusion hok

/-- Witness for C5 at a concrete input. -/
theorem gen_schedule_weekly_day_off_bounds_witness :
    (gen_schedule [5] 0 [Rule.MaxDayOffRule 2, Rule.MinDayOffRule 1]).toOption.map
      (fun asg => decide (1 ≤ countOffWeek asg 5 0 0 ∧ countOffWeek asg 5 0 0 ≤ 2))
      = some true := by
  cases hg : gen_schedule [5] 0 [Rule.MaxDayOffRule 2, Rule.MinDayOffRule 1] with
  | error e =>
    have hdec : (gen_schedule [5] 0
        [Rule.MaxDayOffRule 2, Rule.MinDayOffRule 1]).toOption.isSome = true := by decide
    rw [hg] at hdec
    simp [Except.toOption] at hdec
  | ok asg =>
    have h := gen_schedule_weekly_day_off_bounds [5] 0
      [Rule.MaxDayOffRule 2, Rule.MinDayOffRule 1] 1 2
      (by simp) (by simp) (by omega) (by omega) (by simp) asg hg
      5 (by simp) 0 (by omega)
    simp only [Except.toOption]
    rw [show Option.map (fun asg => decide (1 ≤ countOffWeek asg 5 0 0
        ∧ countOffWeek asg 5 0 0 ≤ 2)) (some asg)
      = some (decide (1 ≤ countOffWeek asg 5 0 0 ∧ countOffWeek asg 5 0 0 ≤ 2))
      from rfl]
    rw [decide_eq_true ⟨h.1, h.2⟩]

/-- Counterexample to C5 as stated: (a) with `min = max = 8` (so
`min ≤ max`) and one staff member, the schedule succeeds with only 7
day-offs in week 0, violating the lower bound; (b) with the duplicated
staff list `[0, 0]` and `min = max = 1`, staff 0 has 2 day-offs in week
0, violating the upper bound. -/
theorem gen_schedule_weekly_day_off_cex :
    ((gen_schedule [0] 0 [Rule.MaxDayOffRule 8, Rule.MinDayOffRule 8]).toOption.map
        (fun asg => countOffWeek asg 0 0 0) = some 7
      ∧ ¬ (8 : Nat) ≤ 7)
    ∧ ((gen_schedule [0, 0] 0 [Rule.MaxDayOffRule 1, Rule.MinDayOffRule 1]).toOption.map
        (fun asg => countOffWeek asg 0 0 0) = some 2
      ∧ ¬ (2 : Nat) ≤ 1) := by
  exact ⟨⟨by decide, by decide⟩, ⟨by decide, by decide⟩⟩

-- Refinement between gen_schedule and the spec-worded algorithm --------

/-- `getD` at the length of the left part of an append reads the middle
element. -/
theorem getD_append_length {α : Type} :
    ∀ (l1 : List α) (x : α) (l2 : List α) (d : α),
      (l1 ++ x :: l2).getD l1.length d = x := by
  intro l1
  induction l1 with
  | nil => intro x l2 d; rfl
  | cons a l1 ih => intro x l2 d; exact ih x l2 d

/-- `set` at the length of the left part of an append replaces the middle
element. -/
theorem set_append_length {α : Type} :
    ∀ (l1 : List α) (x y : α) (l2 : List α),
      (l1 ++ x :: l2).set l1.length y = l1 ++ y :: l2 := by
  intro l1
  induction l1 with
  | nil => intro x y l2; rfl
  | cons a l1 ih =>
    intro x y l2
    show a :: (l1 ++ x :: l2).set l1.length y = a :: (l1 ++ y :: l2)
    rw [ih]

/-- The spec's candidate order coincides with the source's
`shift_options`. -/
theorem spec_candidates_eq (day : Nat) : spec_candidates day = shift_options day := rfl

/-- The spec's "first candidate for which every rule returns true" is
`find?` over the candidates. -/
theorem spec_first_valid_eq (rules : List Rule) (ctx : AssignmentContext) :
    ∀ l : List ShiftType, spec_first_valid rules ctx l
      = l.find? (fun s => rules.all (fun r => r.is_valid ctx s)) := by
  intro l
  induction l with
  | nil => rfl
  | cons c cs ih =>
    by_cases h : rules.all (fun r => r.is_valid ctx c) = true
    · simp only [spec_first_valid, if_pos h]
      exact (@List.find?_cons_of_pos _ (fun s => rules.all (fun r => r.is_valid ctx s))
        c cs h).symm
    · simp only [spec_first_valid, if_neg h]
      rw [@List.find?_cons_of_neg _ (fun s => rules.all (fun r => r.is_valid ctx s))
        c cs (by simpa using h), ih]

/-- Forward-order correspondence: the spec's record-list pass over the
staff coincides with the source's index-based inner loop over ascending
indices starting at `pre.length`. -/
theorem pass_forward (sids : List Nat) (rules : List Rule) (date : Int)
    (day drw : Nat) :
    ∀ (staff pre : List SpecStaff) (st : GenState) (mc ec : Nat),
      st.previous_shifts = (pre ++ staff).map (fun m => m.prev) →
      st.weekly_day_offs = (pre ++ staff).map (fun m => m.offs) →
      sids = (pre ++ staff).map (fun m => m.sid) →
      (∀ e, spec_pass rules date day drw staff mc ec = .error e →
        process_day_staff sids rules date day drw
          (List.range' pre.length staff.length) st mc ec = .error e)
      ∧ (∀ staff2 blk,
          spec_pass rules date day drw staff mc ec = .ok (staff2, blk) →
          process_day_staff sids rules date day drw
            (List.range' pre.length staff.length) st mc ec
            = .ok { previous_shifts := (pre ++ staff2).map (fun m => m.prev)
                    weekly_day_offs := (pre ++ staff2).map (fun m => m.offs)
                    assignments := st.assignments ++ blk }
          ∧ staff2.map (fun m => m.sid) = staff.map (fun m => m.sid)) := by
  intro staff
  induction staff with
  | nil =>
    intro pre st mc ec hprev hweek hsid
    constructor
    · intro e hspec
      exact Except.noConfusion hspec
    · intro staff2 blk hspec
      injection hspec with hpair
      have h1 : staff2 = ([] : List SpecStaff) := (congrArg Prod.fst hpair).symm
      have h2 : blk = ([] : List NewShiftAssignment) := (congrArg Prod.snd hpair).symm
      subst h1
      subst h2
      refine ⟨?_, rfl⟩
      have hred : process_day_staff sids rules date day drw
          (List.range' pre.length 0) st mc ec = .ok st := rfl
      simp only [List.length_nil]
      rw [hred]
      obtain ⟨sp, sw, sa⟩ := st
      simp only [List.append_nil] at hprev hweek
      rw [hprev, hweek]
      simp
  | cons m staff ih =>
    intro pre st mc ec hprev hweek hsid
    have hread_prev : st.previous_shifts.getD pre.length none = m.prev := by
      rw [hprev, List.map_append, List.map_cons]
      rw [show pre.length = (List.map (fun m => m.prev) pre).length
        from (List.length_map _ _).symm]
      exact getD_append_length _ _ _ _
    have hread_week : st.weekly_day_offs.getD pre.length 0 = m.offs := by
      rw [hweek, List.map_append, List.map_cons]
      rw [show pre.length = (List.map (fun m => m.offs) pre).length
        from (List.length_map _ _).symm]
      exact getD_append_length _ _ _ _
    have hread_sid : sids.getD pre.length 0 = m.sid := by
      rw [hsid, List.map_append, List.map_cons]
      rw [show pre.length = (List.map (fun m => m.sid) pre).length
        from (List.length_map _ _).symm]
      exact getD_append_length _ _ _ _
    rcases houtcome : spec_first_valid rules
        ⟨m.prev, m.offs, drw, mc, ec⟩ (shift_options day) with _ | c
    · have hstep : process_day_staff sids rules date day drw
          (List.range' pre.length (m :: staff).length) st mc ec
          = .error (.NoValidShift m.sid day) := by
        rw [List.length_cons, List.range'_succ]
        simp only [process_day_staff]
        rw [hread_prev, hread_week, hread_sid]
        rw [← spec_first_valid_eq, houtcome]
      refine ⟨?_, ?_⟩
      · intro e hspec
        simp only [spec_pass, spec_candidates_eq] at hspec
        rw [houtcome] at hspec
        injection hspec with h
        subst h
        exact hstep
      · intro staff2 blk hspec
        simp only [spec_pass, spec_candidates_eq] at hspec
        rw [houtcome] at hspec
        exact Except.noConfusion hspec
    · have hstep : process_day_staff sids rules date day drw
          (List.range' pre.length (m :: staff).length) st mc ec
          = process_day_staff sids rules date day drw
            (List.range' (pre.length + 1) staff.length)
            { previous_shifts := st.previous_shifts.set pre.length (some c)
              weekly_day_offs := if c = ShiftType.DayOff then
                  st.weekly_day_offs.set pre.length (m.offs + 1)
                else st.weekly_day_offs
              assignments := st.assignments
                ++ [{ staff_id := m.sid, date := date, shift_type := c }] }
            (if c = ShiftType.Morning then mc + 1 else mc)
            (if c = ShiftType.Evening then ec + 1 else ec) := by
        rw [List.length_cons, List.range'_succ]
        simp only [process_day_staff]
        rw [hread_prev, hread_week, hread_sid]
        rw [← spec_first_valid_eq, houtcome]
      have hprev1 : (st.previous_shifts.set pre.length (some c))
          = ((pre ++ [(⟨m.sid, some c, m.offs + offInc c⟩ : SpecStaff)]) ++ staff).map
              (fun m => m.prev) := by
        rw [hprev, List.map_append, List.map_cons]
        rw [show pre.length = (List.map (fun m => m.prev) pre).length
          from (List.length_map _ _).symm]
        rw [set_append_length]
        simp
      have hweek1 : (if c = ShiftType.DayOff then
            st.weekly_day_offs.set pre.length (m.offs + 1)
          else st.weekly_day_offs)
          = ((pre ++ [(⟨m.sid, some c, m.offs + offInc c⟩ : SpecStaff)]) ++ staff).map
              (fun m => m.offs) := by
        by_cases hc : c = ShiftType.DayOff
        · rw [if_pos hc, hweek, List.map_append, List.map_cons]
          rw [show pre.length = (List.map (fun m => m.offs) pre).length
            from (List.length_map _ _).symm]
          rw [set_append_length]
          simp [offInc, hc]
        · rw [if_neg hc, hweek]
          simp [offInc, hc]
      have hsid1 : sids
          = ((pre ++ [(⟨m.sid, some c, m.offs + offInc c⟩ : SpecStaff)]) ++ staff).map
              (fun m => m.sid) := by
        rw [hsid]
        simp
      obtain ⟨IH1, IH2⟩ := ih (pre ++ [(⟨m.sid, some c, m.offs + offInc c⟩ : SpecStaff)])
        { previous_shifts := st.previous_shifts.set pre.length (some c)
          weekly_day_offs := if c = ShiftType.DayOff then
              st.weekly_day_offs.set pre.length (m.offs + 1)
            else st.weekly_day_offs
          assignments := st.assignments
            ++ [{ staff_id := m.sid, date := date, shift_type := c }] }
        (if c = ShiftType.Morning then mc + 1 else mc)
        (if c = ShiftType.Evening then ec + 1 else ec)
        hprev1 hweek1 hsid1
      have hlen2 : (pre ++ [(⟨m.sid, some c, m.offs + offInc c⟩ : SpecStaff)]).length
          = pre.length + 1 := by simp
      rw [hlen2] at IH1 IH2
      refine ⟨?_, ?_⟩
      · intro e hspec
        simp only [spec_pass, spec_candidates_eq] at hspec
        rw [houtcome] at hspec
        cases hrest : spec_pass rules date day drw staff
            (if c = ShiftType.Morning then mc + 1 else mc)
            (if c = ShiftType.Evening then ec + 1 else ec) with
        | error e2 =>
          simp only [hrest] at hspec
          injection hspec with h
          subst h
          rw [hstep]
          exact IH1 e2 hrest
        | ok p =>
          obtain ⟨rest2, blk2⟩ := p
          simp only [hrest] at hspec
          exact Except.noConfusion hspec
      · intro staff2 blk hspec
        simp only [spec_pass, spec_candidates_eq] at hspec
        rw [houtcome] at hspec
        cases hrest : spec_pass rules date day drw staff
            (if c = ShiftType.Morning then mc + 1 else mc)
            (if c = ShiftType.Evening then ec + 1 else ec) with
        | error e2 =>
          simp only [hrest] at hspec
          exact Except.noConfusion hspec
        | ok p =>
          obtain ⟨rest2, blk2⟩ := p
          simp only [hrest] at hspec
          injection hspec with hpair
          have h1 : staff2 = (⟨m.sid, some c, m.offs + offInc c⟩ : SpecStaff) :: rest2 :=
            (congrArg Prod.fst hpair).symm
          have h2 : blk = { staff_id := m.sid, date := date, shift_type := c } :: blk2 :=
            (congrArg Prod.snd hpair).symm
          subst h1
          subst h2
          obtain ⟨IHeq, IHsid⟩ := IH2 rest2 blk2 hrest
          constructor
          · rw [hstep, IHeq]
            congr 1
            simp [List.append_assoc]
          · rw [List.map_cons, List.map_cons, IHsid]

/-- Reverse-order correspondence: the spec's record-list pass over the
reversed staff list coincides with the source's inner loop over the
reversed index range. -/
theorem pass_reverse (sids : List Nat) (rules : List Rule) (date : Int)
    (day drw : Nat) :
    ∀ (staffR pre post : List SpecStaff) (st : GenState) (mc ec : Nat),
      st.previous_shifts = (pre ++ staffR.reverse ++ post).map (fun m => m.prev) →
      st.weekly_day_offs = (pre ++ staffR.reverse ++ post).map (fun m => m.offs) →
      sids = (pre ++ staffR.reverse ++ post).map (fun m => m.sid) →
      (∀ e, spec_pass rules date day drw staffR mc ec = .error e →
        process_day_staff sids rules date day drw
          (List.range' pre.length staffR.length).reverse st mc ec = .error e)
      ∧ (∀ staff2 blk,
          spec_pass rules date day drw staffR mc ec = .ok (staff2, blk) →
          process_day_staff sids rules date day drw
            (List.range' pre.length staffR.length).reverse st mc ec
            = .ok { previous_shifts := (pre ++ staff2.reverse ++ post).map (fun m => m.prev)
                    weekly_day_offs := (pre ++ staff2.reverse ++ post).map (fun m => m.offs)
                    assignments := st.assignments ++ blk }
          ∧ staff2.map (fun m => m.sid) = staffR.map (fun m => m.sid)) := by
  intro staffR
  induction staffR with
  | nil =>
    intro pre post st mc ec hprev hweek hsid
    constructor
    · intro e hspec
      exact Except.noConfusion hspec
    · intro staff2 blk hspec
      injection hspec with hpair
      have h1 : staff2 = ([] : List SpecStaff) := (congrArg Prod.fst hpair).symm
      have h2 : blk = ([] : List NewShiftAssignment) := (congrArg Prod.snd hpair).symm
      subst h1
      subst h2
      refine ⟨?_, rfl⟩
      have hred : process_day_staff sids rules date day drw
          (List.range' pre.length 0).reverse st mc ec = .ok st := rfl
      simp only [List.length_nil]
      rw [hred]
      obtain ⟨sp, sw, sa⟩ := st
      simp only [List.reverse_nil] at hprev hweek
      rw [hprev, hweek]
      simp
  | cons m rest ih =>
    intro pre post st mc ec hprev hweek hsid
    have harr : pre ++ (m :: rest).reverse ++ post
        = (pre ++ rest.reverse) ++ m :: post := by simp
    have horder : (List.range' pre.length (m :: rest).length).reverse
        = (pre.length + rest.length) :: (List.range' pre.length rest.length).reverse := by
      rw [List.length_cons, List.range'_concat]
      simp
    have hread_prev : st.previous_shifts.getD (pre.length + rest.length) none
        = m.prev := by
      rw [hprev, harr, List.map_append, List.map_cons]
      rw [show pre.length + rest.length
        = (List.map (fun m => m.prev) (pre ++ rest.reverse)).length from by simp]
      exact getD_append_length _ _ _ _
    have hread_week : st.weekly_day_offs.getD (pre.length + rest.length) 0
        = m.offs := by
      rw [hweek, harr, List.map_append, List.map_cons]
      rw [show pre.length + rest.length
        = (List.map (fun m => m.offs) (pre ++ rest.reverse)).length from by simp]
      exact getD_append_length _ _ _ _
    have hread_sid : sids.getD (pre.length + rest.length) 0 = m.sid := by
      rw [hsid, harr, List.map_append, List.map_cons]
      rw [show pre.length + rest.length
        = (List.map (fun m => m.sid) (pre ++ rest.reverse)).length from by simp]
      exact getD_append_length _ _ _ _
    rcases houtcome : spec_first_valid rules
        ⟨m.prev, m.offs, drw, mc, ec⟩ (shift_options day) with _ | c
    · have hstep : process_day_staff sids rules date day drw
          (List.range' pre.length (m :: rest).length).reverse st mc ec
          = .error (.NoValidShift m.sid day) := by
        rw [horder]
        simp only [process_day_staff]
        rw [hread_prev, hread_week, hread_sid]
        rw [← spec_first_valid_eq, houtcome]
      refine ⟨?_, ?_⟩
      · intro e hspec
        simp only [spec_pass, spec_candidates_eq] at hspec
        rw [houtcome] at hspec
        injection hspec with h
        subst h
        exact hstep
      · intro staff2 blk hspec
        simp only [spec_pass, spec_candidates_eq] at hspec
        rw [houtcome] at hspec
        exact Except.noConfusion hspec
    · have hstep : process_day_staff sids rules date day drw
          (List.range' pre.length (m :: rest).length).reverse st mc ec
          = process_day_staff sids rules date day drw
            (List.range' pre.length rest.length).reverse
            { previous_shifts := st.previous_shifts.set (pre.length + rest.length) (some c)
              weekly_day_offs := if c = ShiftType.DayOff then
                  st.weekly_day_offs.set (pre.length + rest.length) (m.offs + 1)
                else st.weekly_day_offs
              assignments := st.assignments
                ++ [{ staff_id := m.sid, date := date, shift_type := c }] }
            (if c = ShiftType.Morning then mc + 1 else mc)
            (if c = ShiftType.Evening then ec + 1 else ec) := by
        rw [horder]
        simp only [process_day_staff]
        rw [hread_prev, hread_week, hread_sid]
        rw [← spec_first_valid_eq, houtcome]
      have hprev1 : (st.previous_shifts.set (pre.length + rest.length) (some c))
          = (pre ++ rest.reverse
              ++ ((⟨m.sid, some c, m.offs + offInc c⟩ : SpecStaff) :: post)).map
              (fun m => m.prev) := by
        rw [hprev, harr, List.map_append, List.map_cons]
        rw [show pre.length + rest.length
          = (List.map (fun m => m.prev) (pre ++ rest.reverse)).length from by simp]
        rw [set_append_length]
        simp
      have hweek1 : (if c = ShiftType.DayOff then
            st.weekly_day_offs.set (pre.length + rest.length) (m.offs + 1)
          else st.weekly_day_offs)
          = (pre ++ rest.reverse
              ++ ((⟨m.sid, some c, m.offs + offInc c⟩ : SpecStaff) :: post)).map
              (fun m => m.offs) := by
        by_cases hc : c = ShiftType.DayOff
        · rw [if_pos hc, hweek, harr, List.map_append, List.map_cons]
          rw [show pre.length + rest.length
            = (List.map (fun m => m.offs) (pre ++ rest.reverse)).length from by simp]
          rw [set_append_length]
          simp [offInc, hc]
        · rw [if_neg hc, hweek, harr]
          simp [offInc, hc]
      have hsid1 : sids
          = (pre ++ rest.reverse
              ++ ((⟨m.sid, some c, m.offs + offInc c⟩ : SpecStaff) :: post)).map
              (fun m => m.sid) := by
        rw [hsid]
        simp
      obtain ⟨IH1, IH2⟩ := ih pre
        ((⟨m.sid, some c, m.offs + offInc c⟩ : SpecStaff) :: post)
        { previous_shifts := st.previous_shifts.set (pre.length + rest.length) (some c)
          weekly_day_offs := if c = ShiftType.DayOff then
              st.weekly_day_offs.set (pre.length + rest.length) (m.offs + 1)
            else st.weekly_day_offs
          assignments := st.assignments
            ++ [{ staff_id := m.sid, date := date, shift_type := c }] }
        (if c = ShiftType.Morning then mc + 1 else mc)
        (if c = ShiftType.Evening then ec + 1 else ec)
        hprev1 hweek1 hsid1
      refine ⟨?_, ?_⟩
      · intro e hspec
        simp only [spec_pass, spec_candidates_eq] at hspec
        rw [houtcome] at hspec
        cases hrest : spec_pass rules date day drw rest
            (if c = ShiftType.Morning then mc + 1 else mc)
            (if c = ShiftType.Evening then ec + 1 else ec) with
        | error e2 =>
          simp only [hrest] at hspec
          injection hspec with h
          subst h
          rw [hstep]
          exact IH1 e2 hrest
        | ok p =>
          obtain ⟨rest2, blk2⟩ := p
          simp only [hrest] at hspec
          exact Except.noConfusion hspec
      · intro staff2 blk hspec
        simp only [spec_pass, spec_candidates_eq] at hspec
        rw [houtcome] at hspec
        cases hrest : spec_pass rules date day drw rest
            (if c = ShiftType.Morning then mc + 1 else mc)
            (if c = ShiftType.Evening then ec + 1 else ec) with
        | error e2 =>
          simp only [hrest] at hspec
          exact Except.noConfusion hspec
        | ok p =>
          obtain ⟨rest2, blk2⟩ := p
          simp only [hrest] at hspec
          injection hspec with hpair
          have h1 : staff2 = (⟨m.sid, some c, m.offs + offInc c⟩ : SpecStaff) :: rest2 :=
            (congrArg Prod.fst hpair).symm
          have h2 : blk = { staff_id := m.sid, date := date, shift_type := c } :: blk2 :=
            (congrArg Prod.snd hpair).symm
          subst h1
          subst h2
          obtain ⟨IHeq, IHsid⟩ := IH2 rest2 blk2 hrest
          constructor
          · rw [hstep, IHeq]
            congr 1
            simp [List.append_assoc]
          · rw [List.map_cons, List.map_cons, IHsid]

/-- `pass_forward` specialised to a full forward sweep over the staff. -/
theorem day_forward_closed (sids : List Nat) (rules : List Rule) (date : Int)
    (day drw : Nat) (staff1 : List SpecStaff) (st1 : GenState)
    (hprev : st1.previous_shifts = staff1.map (fun m => m.prev))
    (hweek : st1.weekly_day_offs = staff1.map (fun m => m.offs))
    (hsid : sids = staff1.map (fun m => m.sid)) :
    (∀ e, spec_pass rules date day drw staff1 0 0 = .error e →
      process_day_staff sids rules date day drw
        (List.range sids.length) st1 0 0 = .error e)
    ∧ (∀ staff2 blk,
        spec_pass rules date day drw staff1 0 0 = .ok (staff2, blk) →
        process_day_staff sids rules date day drw
          (List.range sids.length) st1 0 0
          = .ok { previous_shifts := staff2.map (fun m => m.prev)
                  weekly_day_offs := staff2.map (fun m => m.offs)
                  assignments := st1.assignments ++ blk }
        ∧ staff2.map (fun m => m.sid) = staff1.map (fun m => m.sid)) := by
  have hpre : st1.previous_shifts
      = (([] : List SpecStaff) ++ staff1).map (fun m => m.prev) := by
    simpa using hprev
  have hwe : st1.weekly_day_offs
      = (([] : List SpecStaff) ++ staff1).map (fun m => m.offs) := by
    simpa using hweek
  have hsi : sids = (([] : List SpecStaff) ++ staff1).map (fun m => m.sid) := by
    simpa using hsid
  obtain ⟨F1, F2⟩ := pass_forward sids rules date day drw staff1 [] st1 0 0 hpre hwe hsi
  have horder : List.range sids.length
      = List.range' ([] : List SpecStaff).length staff1.length := by
    rw [List.range_eq_range', hsid, List.length_map]
    rfl
  constructor
  · intro e h
    rw [horder]
    exact F1 e h
  · intro staff2 blk h
    obtain ⟨Heq, Hs⟩ := F2 staff2 blk h
    refine ⟨?_, Hs⟩
    rw [horder, Heq]
    simp

/-- `pass_reverse` specialised to a full reverse sweep over the staff. -/
theorem day_reverse_closed (sids : List Nat) (rules : List Rule) (date : Int)
    (day drw : Nat) (staff1 : List SpecStaff) (st1 : GenState)
    (hprev : st1.previous_shifts = staff1.map (fun m => m.prev))
    (hweek : st1.weekly_day_offs = staff1.map (fun m => m.offs))
    (hsid : sids = staff1.map (fun m => m.sid)) :
    (∀ e, spec_pass rules date day drw staff1.reverse 0 0 = .error e →
      process_day_staff sids rules date day drw
        (List.range sids.length).reverse st1 0 0 = .error e)
    ∧ (∀ rev2 blk,
        spec_pass rules date day drw staff1.reverse 0 0 = .ok (rev2, blk) →
        process_day_staff sids rules date day drw
          (List.range sids.length).reverse st1 0 0
          = .ok { previous_shifts := rev2.reverse.map (fun m => m.prev)
                  weekly_day_offs := rev2.reverse.map (fun m => m.offs)
                  assignments := st1.assignments ++ blk }
        ∧ rev2.reverse.map (fun m => m.sid) = staff1.map (fun m => m.sid)) := by
  have hpre : st1.previous_shifts
      = (([] : List SpecStaff) ++ staff1.reverse.reverse ++ []).map
          (fun m : SpecStaff => m.prev) := by
    simpa using hprev
  have hwe : st1.weekly_day_offs
      = (([] : List SpecStaff) ++ staff1.reverse.reverse ++ []).map
          (fun m : SpecStaff => m.offs) := by
    simpa using hweek
  have hsi : sids
      = (([] : List SpecStaff) ++ staff1.reverse.reverse ++ []).map
          (fun m : SpecStaff => m.sid) := by
    simpa using hsid
  obtain ⟨R1, R2⟩ :=
    pass_reverse sids rules date day drw staff1.reverse [] [] st1 0 0 hpre hwe hsi
  have horder : (List.range sids.length).reverse
      = (List.range' ([] : List SpecStaff).length staff1.reverse.length).reverse := by
    rw [List.range_eq_range', hsid, List.length_map]
    simp
  constructor
  · intro e h
    rw [horder]
    exact R1 e h
  · intro rev2 blk h
    obtain ⟨Heq, Hs⟩ := R2 rev2 blk h
    constructor
    · rw [horder, Heq]
      congr 1
      simp
    · rw [List.map_reverse, Hs, List.map_reverse, List.reverse_reverse]

/-- One day of the generator refines one day of the spec algorithm:
errors agree, and on success the updated per-staff arrays are the maps of
the spec's updated records, with the day's block appended. -/
theorem gen_day_refines (sids : List Nat) (rules : List Rule) (pbd : Int)
    (day : Nat) (staff : List SpecStaff) (st : GenState)
    (hprev : st.previous_shifts = staff.map (fun m => m.prev))
    (hweek : st.weekly_day_offs = staff.map (fun m => m.offs))
    (hsid : sids = staff.map (fun m => m.sid)) :
    (∀ e, spec_day rules pbd staff day = .error e →
      gen_day sids rules pbd st day = .error e)
    ∧ (∀ staff2 blk, spec_day rules pbd staff day = .ok (staff2, blk) →
      gen_day sids rules pbd st day
        = .ok { previous_shifts := staff2.map (fun m => m.prev)
                weekly_day_offs := staff2.map (fun m => m.offs)
                assignments := st.assignments ++ blk }
      ∧ staff2.map (fun m => m.sid) = staff.map (fun m => m.sid)) := by
  have hgd : gen_day sids rules pbd st day
      = process_day_staff sids rules (pbd + (day : Int)) day (6 - day % 7)
          (if day % 2 = 0 then List.range sids.length
            else (List.range sids.length).reverse)
          (if day % 7 = 0 then
            { previous_shifts := st.previous_shifts,
              weekly_day_offs := st.weekly_day_offs.map (fun _ => 0),
              assignments := st.assignments }
          else st) 0 0 := rfl
  by_cases h7 : day % 7 = 0
  · rw [if_pos h7] at hgd
    have hprev1 : (GenState.mk st.previous_shifts
          (st.weekly_day_offs.map (fun _ => 0)) st.assignments).previous_shifts
        = (staff.map (fun m => { m with offs := 0 })).map (fun m => m.prev) := by
      dsimp only
      rw [hprev]
      simp [List.map_map]
    have hweek1 : (GenState.mk st.previous_shifts
          (st.weekly_day_offs.map (fun _ => 0)) st.assignments).weekly_day_offs
        = (staff.map (fun m => { m with offs := 0 })).map (fun m => m.offs) := by
      dsimp only
      rw [hweek]
      simp [List.map_map]
    have hsid1 : sids
        = (staff.map (fun m => { m with offs := 0 })).map (fun m => m.sid) := by
      rw [hsid]
      simp [List.map_map]
    by_cases h2 : day % 2 = 0
    · rw [if_pos h2] at hgd
      have hsd : spec_day rules pbd staff day
          = spec_pass rules (pbd + (day : Int)) day (6 - day % 7)
              (staff.map (fun m => { m with offs := 0 })) 0 0 := by
        simp only [spec_day]
        rw [if_pos h7, if_pos h2]
      obtain ⟨F1, F2⟩ := day_forward_closed sids rules (pbd + (day : Int)) day
        (6 - day % 7) (staff.map (fun m => { m with offs := 0 })) _
        hprev1 hweek1 hsid1
      constructor
      · intro e hspec
        rw [hsd] at hspec
        rw [hgd]
        exact F1 e hspec
      · intro staff2 blk hspec
        rw [hsd] at hspec
        obtain ⟨Heq, Hs⟩ := F2 staff2 blk hspec
        refine ⟨?_, ?_⟩
        · rw [hgd, Heq]
        · rw [Hs]
          simp [List.map_map]
    · rw [if_neg h2] at hgd
      have hsd : spec_day rules pbd staff day
          = match spec_pass rules (pbd + (day : Int)) day (6 - day % 7)
              (staff.map (fun m => { m with offs := 0 })).reverse 0 0 with
            | .error e => .error e
            | .ok (rev2, blk) => .ok (rev2.reverse, blk) := by
        simp only [spec_day]
        rw [if_pos h7, if_neg h2]
      obtain ⟨R1, R2⟩ := day_reverse_closed sids rules (pbd + (day : Int)) day
        (6 - day % 7) (staff.map (fun m => { m with offs := 0 })) _
        hprev1 hweek1 hsid1
      constructor
      · intro e hspec
        cases hps : spec_pass rules (pbd + (day : Int)) day (6 - day % 7)
            (staff.map (fun m => { m with offs := 0 })).reverse 0 0 with
        | error e2 =>
          have hsd2 : spec_day rules pbd staff day = .error e2 := by
            rw [hsd, hps]
          have he : e2 = e := by
            have h := hsd2.symm.trans hspec
            injection h
          subst he
          rw [hgd]
          exact R1 e2 hps
        | ok p =>
          obtain ⟨rev2, blk⟩ := p
          have hsd2 : spec_day rules pbd staff day = .ok (rev2.reverse, blk) := by
            rw [hsd, hps]
          have h := hsd2.symm.trans hspec
          exact Except.noConfusion h
      · intro staff2 blk hspec
        cases hps : spec_pass rules (pbd + (day : Int)) day (6 - day % 7)
            (staff.map (fun m => { m with offs := 0 })).reverse 0 0 with
        | error e2 =>
          have hsd2 : spec_day rules pbd staff day = .error e2 := by
            rw [hsd, hps]
          have h := hsd2.symm.trans hspec
          exact Except.noConfusion h
        | ok p =>
          obtain ⟨rev2, blk2⟩ := p
          have hsd2 : spec_day rules pbd staff day = .ok (rev2.reverse, blk2) := by
            rw [hsd, hps]
          have h := hsd2.symm.trans hspec
          injection h with hpair
          have h1 : staff2 = rev2.reverse := (congrArg Prod.fst hpair).symm
          have h2b : blk = blk2 := (congrArg Prod.snd hpair).symm
          subst h1
          subst h2b
          obtain ⟨Heq, Hs⟩ := R2 rev2 blk hps
          refine ⟨?_, ?_⟩
          · rw [hgd, Heq]
          · rw [Hs]
            simp [List.map_map]
  · rw [if_neg h7] at hgd
    by_cases h2 : day % 2 = 0
    · rw [if_pos h2] at hgd
      have hsd : spec_day rules pbd staff day
          = spec_pass rules (pbd + (day : Int)) day (6 - day % 7) staff 0 0 := by
        simp only [spec_day]
        rw [if_neg h7, if_pos h2]
      obtain ⟨F1, F2⟩ := day_forward_closed sids rules (pbd + (day : Int)) day
        (6 - day % 7) staff st hprev hweek hsid
      constructor
      · intro e hspec
        rw [hsd] at hspec
        rw [hgd]
        exact F1 e hspec
      · intro staff2 blk hspec
        rw [hsd] at hspec
        obtain ⟨Heq, Hs⟩ := F2 staff2 blk hspec
        exact ⟨by rw [hgd, Heq], Hs⟩
    · rw [if_neg h2] at hgd
      have hsd : spec_day rules pbd staff day
          = match spec_pass rules (pbd + (day : Int)) day (6 - day % 7)
              staff.reverse 0 0 with
            | .error e => .error e
            | .ok (rev2, blk) => .ok (rev2.reverse, blk) := by
        simp only [spec_day]
        rw [if_neg h7, if_neg h2]
      obtain ⟨R1, R2⟩ := day_reverse_closed sids rules (pbd + (day : Int)) day
        (6 - day % 7) staff st hprev hweek hsid
      constructor
      · intro e hspec
        cases hps : spec_pass rules (pbd + (day : Int)) day (6 - day % 7)
            staff.reverse 0 0 with
        | error e2 =>
          have hsd2 : spec_day rules pbd staff day = .error e2 := by
            rw [hsd, hps]
          have he : e2 = e := by
            have h := hsd2.symm.trans hspec
            injection h
          subst he
          rw [hgd]
          exact R1 e2 hps
        | ok p =>
          obtain ⟨rev2, blk⟩ := p
          have hsd2 : spec_day rules pbd staff day = .ok (rev2.reverse, blk) := by
            rw [hsd, hps]
          have h := hsd2.symm.trans hspec
          exact Except.noConfusion h
      · intro staff2 blk hspec
        cases hps : spec_pass rules (pbd + (day : Int)) day (6 - day % 7)
            staff.reverse 0 0 with
        | error e2 =>
          have hsd2 : spec_day rules pbd staff day = .error e2 := by
            rw [hsd, hps]
          have h := hsd2.symm.trans hspec
          exact Except.noConfusion h
        | ok p =>
          obtain ⟨rev2, blk2⟩ := p
          have hsd2 : spec_day rules pbd staff day = .ok (rev2.reverse, blk2) := by
            rw [hsd, hps]
          have h := hsd2.symm.trans hspec
          injection h with hpair
          have h1 : staff2 = rev2.reverse := (congrArg Prod.fst hpair).symm
          have h2b : blk = blk2 := (congrArg Prod.snd hpair).symm
          subst h1
          subst h2b
          obtain ⟨Heq, Hs⟩ := R2 rev2 blk hps
          exact ⟨by rw [hgd, Heq], Hs⟩

/-- The day loop of the generator refines the spec's day loop. -/
theorem gen_days_refines (sids : List Nat) (rules : List Rule) (pbd : Int) :
    ∀ (days : List Nat) (staff : List SpecStaff) (st : GenState)
      (acc : List NewShiftAssignment),
      st.previous_shifts = staff.map (fun m => m.prev) →
      st.weekly_day_offs = staff.map (fun m => m.offs) →
      sids = staff.map (fun m => m.sid) →
      st.assignments = acc →
      (∀ e, spec_days rules pbd days staff acc = .error e →
        gen_days sids rules pbd days st = .error e)
      ∧ (∀ out, spec_days rules pbd days staff acc = .ok out →
        ∃ st2, gen_days sids rules pbd days st = .ok st2
          ∧ st2.assignments = out) := by
  intro days
  induction days with
  | nil =>
    intro staff st acc hprev hweek hsid hacc
    constructor
    · intro e hspec
      exact Except.noConfusion hspec
    · intro out hspec
      injection hspec with h
      exact ⟨st, rfl, hacc.trans h⟩
  | cons d ds ih =>
    intro staff st acc hprev hweek hsid hacc
    obtain ⟨D1, D2⟩ := gen_day_refines sids rules pbd d staff st hprev hweek hsid
    cases hsd : spec_day rules pbd staff d with
    | error e0 =>
      have hg : gen_day sids rules pbd st d = .error e0 := D1 e0 hsd
      have hge : gen_days sids rules pbd (d :: ds) st = .error e0 := by
        simp only [gen_days]
        rw [hg]
      have hse : spec_days rules pbd (d :: ds) staff acc = .error e0 := by
        simp only [spec_days]
        rw [hsd]
      constructor
      · intro e hspec
        have h := hse.symm.trans hspec
        injection h with h
        subst h
        exact hge
      · intro out hspec
        exact Except.noConfusion (hse.symm.trans hspec)
    | ok p =>
      obtain ⟨staff2, blk⟩ := p
      obtain ⟨hg, hsids2⟩ := D2 staff2 blk hsd
      have hge : gen_days sids rules pbd (d :: ds) st
          = gen_days sids rules pbd ds
              { previous_shifts := staff2.map (fun m => m.prev)
                weekly_day_offs := staff2.map (fun m => m.offs)
                assignments := st.assignments ++ blk } := by
        simp only [gen_days]
        rw [hg]
      have hse : spec_days rules pbd (d :: ds) staff acc
          = spec_days rules pbd ds staff2 (acc ++ blk) := by
        simp only [spec_days]
        rw [hsd]
      obtain ⟨J1, J2⟩ := ih staff2
        { previous_shifts := staff2.map (fun m => m.prev)
          weekly_day_offs := staff2.map (fun m => m.offs)
          assignments := st.assignments ++ blk }
        (acc ++ blk) rfl rfl (hsid.trans hsids2.symm) (by rw [hacc])
      constructor
      · intro e hspec
        rw [hse] at hspec
        rw [hge]
        exact J1 e hspec
      · intro out hspec
        rw [hse] at hspec
        obtain ⟨st2, hst2, hout⟩ := J2 out hspec
        refine ⟨st2, ?_, hout⟩
        rw [hge]
        exact hst2

/-- C7: for every day d of the 28-day horizon, gen_schedule processes
staff in forward list order on even d (reverse order on odd d), tries
candidates in the order [Morning, Evening, DayOff] on even d
([Evening, Morning, DayOff] on odd d), and assigns each staff member the
first candidate accepted by every rule — stated as equality with
`gen_schedule_spec`, the algorithm transcribed from the spec's words. -/
theorem gen_schedule_refines_spec (sids : List Nat) (pbd : Int)
    (rules : List Rule) :
    gen_schedule sids pbd rules = gen_schedule_spec sids pbd rules := by
  have hprev0 : (GenState.mk (List.replicate sids.length none)
        (List.replicate sids.length 0) []).previous_shifts
      = (sids.map (fun s => ({ sid := s, prev := none, offs := 0 } : SpecStaff))).map
          (fun m => m.prev) := by
    simp [List.map_map, Function.comp_def, List.map_const']
  have hweek0 : (GenState.mk (List.replicate sids.length none)
        (List.replicate sids.length 0) []).weekly_day_offs
      = (sids.map (fun s => ({ sid := s, prev := none, offs := 0 } : SpecStaff))).map
          (fun m => m.offs) := by
    simp [List.map_map, Function.comp_def, List.map_const']
  have hsid0 : sids
      = (sids.map (fun s => ({ sid := s, prev := none, offs := 0 } : SpecStaff))).map
          (fun m => m.sid) := by
    simp [List.map_map, Function.comp_def]
  obtain ⟨G1, G2⟩ := gen_days_refines sids rules pbd (List.range PERIOD_DAYS)
    (sids.map (fun s => ({ sid := s, prev := none, offs := 0 } : SpecStaff)))
    (GenState.mk (List.replicate sids.length none)
      (List.replicate sids.length 0) [])
    [] hprev0 hweek0 hsid0 rfl
  cases hsp : spec_days rules pbd (List.range PERIOD_DAYS)
      (sids.map (fun s => ({ sid := s, prev := none, offs := 0 } : SpecStaff))) [] with
  | error e =>
    have hg := G1 e hsp
    have h1 : gen_schedule sids pbd rules = .error e := by
      simp only [gen_schedule]
      rw [hg]
    have h2 : gen_schedule_spec sids pbd rules = .error e := by
      simp only [gen_schedule_spec]
      exact hsp
    rw [h1, h2]
  | ok out =>
    obtain ⟨st2, hst2, hout⟩ := G2 out hsp
    have h1 : gen_schedule sids pbd rules = .ok st2.assignments := by
      simp only [gen_schedule]
      rw [hst2]
    have h2 : gen_schedule_spec sids pbd rules = .ok out := by
      simp only [gen_schedule_spec]
      exact hsp
    rw [h1, h2, hout]

-- C4 ----------------------------------------------------------------

/-- C4: `get_resolved_members` makes at most 3 HTTP attempts, sleeping
100 ms and then 200 ms between attempts; a retry happens only after a
transport-level failure; a response with a non-success status is a
terminal `DataService` error with no further attempt; and three transport
failures yield `DataServiceUnavailable`. -/
theorem get_resolved_members_retry_policy :
    ∀ (outcomes : Nat → AttemptOutcome),
      attemptCount (HttpDataServiceClient.get_resolved_members outcomes).1 ≤ 3
      ∧ sleepsOf (HttpDataServiceClient.get_resolved_members outcomes).1
          = List.take
              (attemptCount (HttpDataServiceClient.get_resolved_members outcomes).1 - 1)
              [100, 200]
      ∧ (∀ k, 1 ≤ k →
          ClientEvent.attempt (k + 1)
              ∈ (HttpDataServiceClient.get_resolved_members outcomes).1 →
          ∃ m, outcomes k = .transportError m)
      ∧ (∀ k body, outcomes k = .response false body →
          ClientEvent.attempt k ∈ (HttpDataServiceClient.get_resolved_members outcomes).1 →
          (∃ m, (HttpDataServiceClient.get_resolved_members outcomes).2
              = .error (.DataService m))
          ∧ ClientEvent.attempt (k + 1)
              ∉ (HttpDataServiceClient.get_resolved_members outcomes).1)
      ∧ ((∃ m1 m2 m3, outcomes 1 = .transportError m1 ∧ outcomes 2 = .transportError m2
            ∧ outcomes 3 = .transportError m3) →
          ∃ m, (HttpDataServiceClient.get_resolved_members outcomes).2
            = .error (.DataServiceUnavailable m)) := by
  intro outcomes
  rcases h1 : outcomes 1 with m1 | ⟨s1, b1⟩
  · rcases h2 : outcomes 2 with m2 | ⟨s2, b2⟩
    · rcases h3 : outcomes 3 with m3 | ⟨s3, b3⟩
      · -- three transport failures
        have htr : HttpDataServiceClient.get_resolved_members outcomes
            = ([.attempt 1, .sleep 100, .attempt 2, .sleep 200, .attempt 3],
               .error (.DataServiceUnavailable
                 "Failed to reach Data Service after 3 attempts")) := by
          simp [HttpDataServiceClient.get_resolved_members, attemptLoop, MAX_RETRIES,
            h1, h2, h3]
        have htr1 : (HttpDataServiceClient.get_resolved_members outcomes).1
            = [.attempt 1, .sleep 100, .attempt 2, .sleep 200, .attempt 3] := by
          rw [htr]
        have htr2 : (HttpDataServiceClient.get_resolved_members outcomes).2
            = .error (.DataServiceUnavailable
                "Failed to reach Data Service after 3 attempts") := by
          rw [htr]
        refine ⟨by rw [htr1]; decide, by rw [htr1]; decide, ?_, ?_, ?_⟩
        · intro k hk hmem
          rw [htr1] at hmem
          simp at hmem
          rcases hmem with h | h | h
          · omega
          · have hke : k = 1 := by omega
            subst hke
            exact ⟨m1, h1⟩
          · have hke : k = 2 := by omega
            subst hke
            exact ⟨m2, h2⟩
        · intro k body hk hmem
          rw [htr1] at hmem
          simp at hmem
          rcases hmem with h | h | h
          · have hke : k = 1 := by omega
            subst hke
            rw [h1] at hk
            simp at hk
          · have hke : k = 2 := by omega
            subst hke
            rw [h2] at hk
            simp at hk
          · have hke : k = 3 := by omega
            subst hke
            rw [h3] at hk
            simp at hk
        · intro _
          exact ⟨"Failed to reach Data Service after 3 attempts", htr2⟩
      · -- transport, transport, response
        have htr : HttpDataServiceClient.get_resolved_members outcomes
            = ([.attempt 1, .sleep 100, .attempt 2, .sleep 200, .attempt 3],
               respResult s3 b3) := by
          simp [HttpDataServiceClient.get_resolved_members, attemptLoop, MAX_RETRIES,
            h1, h2, h3]
        have htr1 : (HttpDataServiceClient.get_resolved_members outcomes).1
            = [.attempt 1, .sleep 100, .attempt 2, .sleep 200, .attempt 3] := by
          rw [htr]
        have htr2 : (HttpDataServiceClient.get_resolved_members outcomes).2
            = respResult s3 b3 := by
          rw [htr]
        refine ⟨by rw [htr1]; decide, by rw [htr1]; decide, ?_, ?_, ?_⟩
        · intro k hk hmem
          rw [htr1] at hmem
          simp at hmem
          rcases hmem with h | h | h
          · omega
          · have hke : k = 1 := by omega
            subst hke
            exact ⟨m1, h1⟩
          · have hke : k = 2 := by omega
            subst hke
            exact ⟨m2, h2⟩
        · intro k body hk hmem
          rw [htr1] at hmem
          simp at hmem
          rcases hmem with h | h | h
          · have hke : k = 1 := by omega
            subst hke
            rw [h1] at hk
            simp at hk
          · have hke : k = 2 := by omega
            subst hke
            rw [h2] at hk
            simp at hk
          · have hke : k = 3 := by omega
            subst hke
            rw [h3] at hk
            injection hk with hs hb
            subst hs
            subst hb
            refine ⟨⟨"Data Service returned a non-success status",
              by rw [htr2]; simp [respResult]⟩, ?_⟩
            rw [htr1]
            decide
        · rintro ⟨w1, w2, w3, ha, hb, hc⟩
          simp at hc
    · -- transport, response
      have htr : HttpDataServiceClient.get_resolved_members outcomes
          = ([.attempt 1, .sleep 100, .attempt 2], respResult s2 b2) := by
        simp [HttpDataServiceClient.get_resolved_members, attemptLoop, MAX_RETRIES, h1, h2]
      have htr1 : (HttpDataServiceClient.get_resolved_members outcomes).1
          = [.attempt 1, .sleep 100, .attempt 2] := by
        rw [htr]
      have htr2 : (HttpDataServiceClient.get_resolved_members outcomes).2
          = respResult s2 b2 := by
        rw [htr]
      refine ⟨by rw [htr1]; decide, by rw [htr1]; decide, ?_, ?_, ?_⟩
      · intro k hk hmem
        rw [htr1] at hmem
        simp at hmem
        rcases hmem with h | h
        · omega
        · have hke : k = 1 := by omega
          subst hke
          exact ⟨m1, h1⟩
      · intro k body hk hmem
        rw [htr1] at hmem
        simp at hmem
        rcases hmem with h | h
        · have hke : k = 1 := by omega
          subst hke
          rw [h1] at hk
          simp at hk
        · have hke : k = 2 := by omega
          subst hke
          rw [h2] at hk
          injection hk with hs hb
          subst hs
          subst hb
          refine ⟨⟨"Data Service returned a non-success status",
            by rw [htr2]; simp [respResult]⟩, ?_⟩
          rw [htr1]
          decide
      · rintro ⟨w1, w2, w3, ha, hb, hc⟩
        simp at hb
  · -- response at the first attempt
    have htr : HttpDataServiceClient.get_resolved_members outcomes
        = ([.attempt 1], respResult s1 b1) := by
      simp [HttpDataServiceClient.get_resolved_members, attemptLoop, MAX_RETRIES, h1]
    have htr1 : (HttpDataServiceClient.get_resolved_members outcomes).1
        = [.attempt 1] := by
      rw [htr]
    have htr2 : (HttpDataServiceClient.get_resolved_members outcomes).2
        = respResult s1 b1 := by
      rw [htr]
    refine ⟨by rw [htr1]; decide, by rw [htr1]; decide, ?_, ?_, ?_⟩
    · intro k hk hmem
      rw [htr1] at hmem
      simp at hmem
      omega
    · intro k body hk hmem
      rw [htr1] at hmem
      simp at hmem
      subst hmem
      rw [h1] at hk
      injection hk with hs hb
      subst hs
      subst hb
      refine ⟨⟨"Data Service returned a non-success status",
        by rw [htr2]; simp [respResult]⟩, ?_⟩
      rw [htr1]
      decide
    · rintro ⟨w1, w2, w3, ha, hb, hc⟩
      simp at ha

/-- Witness for C4 at concrete inputs. -/
theorem get_resolved_members_retry_policy_witness :
    (∃ m, (HttpDataServiceClient.get_resolved_members
        (fun _ => .transportError "connection refused")).2
      = .error (.DataServiceUnavailable m))
    ∧ attemptCount (HttpDataServiceClient.get_resolved_members
        (fun _ => .transportError "connection refused")).1 ≤ 3 :=
  ⟨(get_resolved_members_retry_policy _).2.2.2.2
      ⟨"connection refused", "connection refused", "connection refused", rfl, rfl, rfl⟩,
   (get_resolved_members_retry_policy _).1⟩

/-- Witness for C6 at concrete inputs (day 4 since the epoch, 1970-01-05,
was a Monday; day 5 was a Tuesday). -/
theorem submit_schedule_validation_witness :
    submit_schedule 7 5 0
        = ([], .error (.BadRequest "period_begin_date must be a Monday"))
    ∧ submit_schedule 7 4 4 = ([.createJob 7 4], .ok ())
    ∧ submit_schedule 7 4 11
        = ([], .error (.BadRequest "period_begin_date must not be in the past")) :=
  ⟨(submit_schedule_validation 7 5 0).1 (by decide),
   (submit_schedule_validation 7 4 4).2.2 (by decide) rfl,
   (submit_schedule_validation 7 4 11).2.1 (by decide) (by decide)⟩

end ShiftScheduler
